import Mathlib

/-!
Verification development for the front-end of the Clue source-to-source
compiler: a shallow embedding in Lean 4 of the scanner
(`src/core/src/scanner.rs`), the preprocessor
(`src/core/src/preprocessor.rs`) and the file analyzer
(`analyze_file` in the same file), together with theorems that settle the
specification claims about them.

Conventions of the embedding:
- Rust `char` streams become `List Char`; Rust `String`/`LinkedString`
  accumulators become `List Char` (converted with `String.mk` where the
  source produces a `String`).
- `usize`/`u8` arithmetic is `Nat`; where the source relies on wrap-around
  (release-mode overflow) the wrap is written out explicitly as `% 2^64`
  or `% 256`.
- Loops whose termination is not structural take an explicit fuel
  argument; every entry point passes enough fuel for all real executions
  (each loop iteration consumes at least one input element).
- Writes to standard output are modelled by collecting the message in a
  `printed` list (scanner) or by dropping it (preprocessor warnings);
  returned values are modelled exactly.
- The process environment (`env::var`, `env::consts::OS`) is passed in as
  explicit parameters.
-/

/-! ## Scanner: token and keyword types (`scanner.rs`) -/

inductive TokenType where
  | ROUND_BRACKET_OPEN | ROUND_BRACKET_CLOSED | SQUARE_BRACKET_OPEN
  | SQUARE_BRACKET_CLOSED | CURLY_BRACKET_OPEN | CURLY_BRACKET_CLOSED
  | COMMA | SEMICOLON | NOT | AND | OR | PLUS | MINUS | STAR | SLASH
  | PERCENTUAL | CARET | HASHTAG | SAFE_DOUBLE_COLON | DOUBLE_COLON | AT
  | DOT | TWODOTS | THREEDOTS | SAFEDOT | SAFE_SQUARE_BRACKET | SAFE_EXPRESSION
  | BIT_AND | BIT_OR | BIT_XOR | BIT_NOT | LEFT_SHIFT | RIGHT_SHIFT
  | QUESTION_MARK | COLON | ARROW | FLOOR_DIVISION
  | DEFINE | DEFINE_AND | DEFINE_OR | INCREASE | DECREASE | MULTIPLY | DIVIDE
  | EXPONENTIATE | CONCATENATE | MODULATE | EQUAL | NOT_EQUAL
  | BIGGER | BIGGER_EQUAL | SMALLER | SMALLER_EQUAL
  | IDENTIFIER | NUMBER | STRING
  | IF | ELSEIF | ELSE | FOR | OF | IN | WITH | WHILE | META | GLOBAL | UNTIL
  | LOCAL | FN | METHOD | RETURN | TRUE | FALSE | NIL | LOOP | STATIC | ENUM
  | CONTINUE | BREAK | TRY | CATCH | MATCH | DEFAULT | MACRO | STRUCT | EXTERN
  | CONSTRUCTOR
  | EOF
deriving DecidableEq, Repr

open TokenType

structure Token where
  kind : TokenType
  lexeme : String
  line : Nat
deriving DecidableEq, Repr

/-- `Token::new`. -/
def Token.new (kind : TokenType) (lexeme : String) (line : Nat) : Token :=
  ⟨kind, lexeme, line⟩

/-- `CharExt::is_identifier`: `is_ascii_alphanumeric() || '_'`
(`Char.isAlphanum` is ASCII-only in Lean, matching Rust). -/
def is_identifier (c : Char) : Bool :=
  c.isAlphanum || c = '_'

/-- The scanner state `CodeInfo`.  The extra field `printed` collects the
messages written to standard output by `warning` (the source prints them
and only remembers `errored`); all other fields are exactly the source's. -/
structure CodeInfo where
  line : Nat
  start : Nat
  current : Nat
  size : Nat
  code : List Char
  filename : String
  tokens : List Token
  last : TokenType
  errored : Bool
  printed : List String
deriving Repr

/-- `CodeInfo::new` (the `size` is the char count of the code). -/
def CodeInfo.new (code : String) (filename : String) : CodeInfo :=
  ⟨1, 0, 0, code.data.length, code.data, filename, [], EOF, false, []⟩

/-- `CodeInfo::at`: out-of-range positions read as `'\0'`. -/
def char_at (code : List Char) (size : Nat) (pos : Nat) : Char :=
  if pos ≥ size then Char.ofNat 0 else code.getD pos (Char.ofNat 0)

def CodeInfo.at (i : CodeInfo) (pos : Nat) : Char :=
  char_at i.code i.size pos

def CodeInfo.ended (i : CodeInfo) : Bool :=
  i.current ≥ i.size

/-- `CodeInfo::advance`: returns the character at `current` and bumps it. -/
def CodeInfo.advance (i : CodeInfo) : Char × CodeInfo :=
  (i.at i.current, { i with current := i.current + 1 })

/-- `CodeInfo::compare`. -/
def CodeInfo.compare (i : CodeInfo) (expected : Char) : Bool × CodeInfo :=
  if i.current ≥ i.size then (false, i)
  else if i.at i.current ≠ expected then (false, i)
  else (true, { i with current := i.current + 1 })

def CodeInfo.peek (i : CodeInfo) (pos : Nat) : Char :=
  i.at (i.current + pos)

/-- `CodeInfo::look_back` (`at(current - pos - 1)`; only called with
`current ≥ 1`, so the `Nat` truncation at zero is unreachable). -/
def CodeInfo.look_back (i : CodeInfo) (pos : Nat) : Char :=
  i.at (i.current - pos - 1)

/-- `CodeInfo::substr` as a list: the source loop copies `code[start..end]`
stopping at `size`. -/
def substr_list (code : List Char) (s e : Nat) : List Char :=
  (code.drop s).take (e - s)

def CodeInfo.substr (i : CodeInfo) (s e : Nat) : String :=
  String.mk (substr_list i.code s e)

/-- `CodeInfo::add_literal_token` (does not update `last`). -/
def CodeInfo.add_literal_token (i : CodeInfo) (kind : TokenType) (literal : String) : CodeInfo :=
  { i with tokens := i.tokens ++ [Token.new kind literal i.line] }

/-- `CodeInfo::add_token`: lexeme is `substr(start, current)`, updates `last`. -/
def CodeInfo.add_token (i : CodeInfo) (kind : TokenType) : CodeInfo :=
  { i with last := kind,
           tokens := i.tokens ++ [Token.new kind (i.substr i.start i.current) i.line] }

/-- `CodeInfo::warning`: prints the message and sets `errored`. -/
def CodeInfo.warning (i : CodeInfo) (message : String) : CodeInfo :=
  { i with errored := true, printed := i.printed ++ [message] }

/-- `CodeInfo::reserved`: warns and degrades the token to `IDENTIFIER`. -/
def CodeInfo.reserved (i : CodeInfo) (keyword msg : String) : TokenType × CodeInfo :=
  (IDENTIFIER,
   i.warning ("'" ++ keyword ++
     "' is a reserved keyword in Lua and it cannot be used as a variable, " ++ msg))

/-- A `while check(peek(0)) { current += 1 }` loop.  The extra `current < size`
guard is equivalent to the source because no `check` used by the scanner
accepts `'\0'`; the fuel (`size + 1` at every call site) bounds the at most
`size - current` iterations. -/
def scan_while (fuel : Nat) (code : List Char) (size : Nat) (check : Char → Bool)
    (current : Nat) : Nat :=
  match fuel with
  | 0 => current
  | fuel + 1 =>
    if current < size ∧ check (char_at code size current) then
      scan_while fuel code size check (current + 1)
    else current

/-- `CodeInfo::read_number` (digit body, optional fraction, optional
exponent when `simple`, then the `LL`/`UL`(`L`) typed suffix). -/
def CodeInfo.read_number (i : CodeInfo) (check : Char → Bool) (simple : Bool) : CodeInfo :=
  let start := i.current
  let cur1 := scan_while (i.size + 1) i.code i.size check i.current
  let cur2 :=
    if char_at i.code i.size cur1 = '.' ∧ check (char_at i.code i.size (cur1 + 1)) then
      scan_while (i.size + 1) i.code i.size check (cur1 + 1)
    else cur1
  let p3 : Nat × CodeInfo :=
    if simple then
      let c := char_at i.code i.size cur2
      if c = 'e' ∨ c = 'E' then
        let c2 := char_at i.code i.size (cur2 + 1)
        let pa : Nat × CodeInfo :=
          if ¬ c2.isDigit then
            if c2 = '-' ∧ (char_at i.code i.size (cur2 + 2)).isDigit then
              (cur2 + 1, i)
            else (cur2, i.warning "Malformed number")
          else (cur2, i)
        (scan_while (i.size + 1) i.code i.size Char.isDigit (pa.1 + 1), pa.2)
      else (cur2, i)
    else if cur2 = start then (cur2, i.warning "Malformed number")
    else (cur2, i)
  let llcheck := String.mk (substr_list i.code p3.1 (p3.1 + 2))
  let p4 : Nat × CodeInfo :=
    if llcheck = "LL" then (p3.1 + 2, p3.2)
    else if llcheck = "UL" then
      if char_at i.code i.size (p3.1 + 2) = 'L' then (p3.1 + 3, p3.2)
      else (p3.1, p3.2.warning "Malformed number")
    else (p3.1, p3.2)
  CodeInfo.add_token { p4.2 with current := p4.1 } NUMBER

/-- The scan loop of `read_string`: skips escaped characters, counts
newlines into `aline`, stops at `strend` or end of input. -/
def string_scan (fuel : Nat) (code : List Char) (size : Nat) (strend : Char)
    (cur aline : Nat) : Nat × Nat :=
  match fuel with
  | 0 => (cur, aline)
  | fuel + 1 =>
    if cur < size ∧ char_at code size cur ≠ strend then
      if char_at code size cur = '\\' then string_scan fuel code size strend (cur + 2) aline
      else if char_at code size cur = '\n' then
        string_scan fuel code size strend (cur + 1) (aline + 1)
      else string_scan fuel code size strend (cur + 1) aline
    else (cur, aline)

/-- `CodeInfo::read_string`: the emitted lexeme keeps the delimiters and
strips `\r`, `\n`, `\t`. -/
def CodeInfo.read_string (i : CodeInfo) (strend : Char) : CodeInfo :=
  let (cur, aline) := string_scan (i.size + 1) i.code i.size strend i.current i.line
  if cur ≥ i.size then
    { i.warning "Unterminated string" with current := cur, line := aline }
  else
    let literal :=
      String.mk ((substr_list i.code i.start (cur + 1)).filter
        (fun c => ¬ (c = '\r' ∨ c = '\n' ∨ c = '\t')))
    { CodeInfo.add_literal_token { i with current := cur + 1 } STRING literal with
        line := aline }

/-- Substring search (`str::contains`). -/
def has_infix (pat : List Char) : List Char → Bool
  | [] => pat.isEmpty
  | c :: t => pat.isPrefixOf (c :: t) || has_infix pat t

/-- The closing long-bracket delimiter `]` + `=`×k + `]`. -/
def closing_bracket (k : Nat) : List Char :=
  ']' :: List.replicate k '=' ++ [']']

/-- The bracket-level search loop of `read_raw_string`: starting from
`k = 0` (forced once to move on when the body ends with `]`), bump `k`
while `]`+`=`×k+`]` occurs in the body.  The fuel bounds the search; a
pattern longer than the body cannot occur in it, so `length + 2` steps
always suffice. -/
def brackets_loop (lit : List Char) : Nat → Bool → Nat → Nat
  | 0, _, k => k
  | fuel + 1, must, k =>
    if must || has_infix (closing_bracket k) lit then brackets_loop lit fuel false (k + 1)
    else k

def brackets_level (lit : List Char) : Nat :=
  brackets_loop lit (lit.length + 2) (lit.getLast? = some ']') 0

/-- `str::replace("\\`", "`")` on the raw-string body. -/
def unescape_raw : List Char → List Char
  | [] => []
  | '\\' :: '`' :: t => '`' :: unescape_raw t
  | c :: t => c :: unescape_raw t

/-- The long-bracket lexeme emitted for a raw-string body
(`format!("[{}[{}]{}]", brackets, literal.replace("\\`", "`"), brackets)`). -/
def raw_lexeme (lit : List Char) : List Char :=
  let brackets := List.replicate (brackets_level lit) '='
  '[' :: brackets ++ '[' :: unescape_raw lit ++ ']' :: brackets ++ [']']

/-- The scan loop of `read_raw_string`: stop at a backtick whose previous
character is not `\`. -/
def raw_scan (fuel : Nat) (code : List Char) (size : Nat) (cur aline : Nat) : Nat × Nat :=
  match fuel with
  | 0 => (cur, aline)
  | fuel + 1 =>
    if cur < size ∧ (char_at code size cur ≠ '`' ∨ char_at code size (cur - 1) = '\\') then
      raw_scan fuel code size (cur + 1)
        (if char_at code size cur = '\n' then aline + 1 else aline)
    else (cur, aline)

/-- `CodeInfo::read_raw_string`. -/
def CodeInfo.read_raw_string (i : CodeInfo) : CodeInfo :=
  let (cur, aline) := raw_scan (i.size + 1) i.code i.size i.current i.line
  if cur ≥ i.size then
    { i.warning "Unterminated string" with current := cur, line := aline }
  else
    let literal := substr_list i.code (i.start + 1) cur
    { CodeInfo.add_literal_token { i with current := cur + 1 } STRING
        (String.mk (raw_lexeme literal)) with line := aline }

/-- `CodeInfo::read_identifier`. -/
def CodeInfo.read_identifier (i : CodeInfo) : String × CodeInfo :=
  let cur := scan_while (i.size + 1) i.code i.size is_identifier i.current
  (String.mk (substr_list i.code i.start cur), { i with current := cur })

/-- `CodeInfo::read_comment` (`//` comments; the newline is not consumed). -/
def CodeInfo.read_comment (i : CodeInfo) : CodeInfo :=
  { i with current := scan_while (i.size + 1) i.code i.size (fun c => c ≠ '\n') i.current }

/-- The scan loop of `read_multiline_comment`. -/
def ml_scan (fuel : Nat) (code : List Char) (size : Nat) (cur line : Nat) : Nat × Nat :=
  match fuel with
  | 0 => (cur, line)
  | fuel + 1 =>
    if cur < size ∧ ¬ (char_at code size cur = '*' ∧ char_at code size (cur + 1) = '/') then
      ml_scan fuel code size (cur + 1)
        (if char_at code size cur = '\n' then line + 1 else line)
    else (cur, line)

/-- `CodeInfo::read_multiline_comment`. -/
def CodeInfo.read_multiline_comment (i : CodeInfo) : CodeInfo :=
  let (cur, line) := ml_scan (i.size + 1) i.code i.size i.current i.line
  if cur ≥ i.size then
    { i.warning "Unterminated comment" with current := cur, line := line }
  else { i with current := cur + 2, line := line }

/-! ## Scanner: symbol dispatch table and keyword table -/

/-- The finitely many scanner actions stored as `SymbolType::FUNCTION`
values in the dispatch table, defunctionalized. -/
inductive SymAction where
  | readComment
  | readMultilineComment
  | readString (delim : Char)
  | readRawString
  | countNewline
  | warnDeprecated (msg : String)
  | safeDoubleColon
deriving DecidableEq, Repr

/-- `SymbolType`.  The sparse `Vec<Option<SymbolType>>` built by
`generate_map` is represented by the association list it is generated
from (lookup by character is equivalent: absent characters map to none). -/
inductive SymbolType where
  | JUST (kind : TokenType)
  | FUNCTION (action : SymAction)
  | SYMBOLS (map : List (Char × SymbolType)) (default : TokenType)

/-- `Function(f)` dispatch: the body of each closure stored in the table. -/
def applyAction : SymAction → CodeInfo → CodeInfo
  | .readComment, i => i.read_comment
  | .readMultilineComment, i => i.read_multiline_comment
  | .readString d, i => i.read_string d
  | .readRawString, i => i.read_raw_string
  | .countNewline, i => { i with line := i.line + 1 }
  | .warnDeprecated m, i => i.warning m
  | .safeDoubleColon, i =>
    let (ok, i) := i.compare ':'
    if ok then i.add_token SAFE_DOUBLE_COLON
    else { i with current := i.current - 1 }

/-- `CodeInfo::scan_char`.  The recursion over the nested table is bounded
by a fuel argument; the table is at most three levels deep, so the fuel
`4` used by the scan loop never runs out. -/
def scan_char (fuel : Nat) (symbols : List (Char × SymbolType)) (c : Char) (i : CodeInfo) :
    Bool × CodeInfo :=
  match fuel with
  | 0 => (false, i)
  | fuel + 1 =>
    match List.lookup c symbols with
    | some (.JUST kind) => (true, i.add_token kind)
    | some (.FUNCTION f) => (true, applyAction f i)
    | some (.SYMBOLS sub default) =>
      let (nextc, i) := i.advance
      let (ok, i) := scan_char fuel sub nextc i
      if ok then (true, i)
      else (true, CodeInfo.add_token { i with current := i.current - 1 } default)
    | none => (false, i)

/-- The static symbol dispatch table `SYMBOLS` (entry order as in the
source; `generate_map`'s sparse vector is kept as this association list). -/
def SYMBOLS : List (Char × SymbolType) := [
  ('(', .JUST ROUND_BRACKET_OPEN),
  (')', .JUST ROUND_BRACKET_CLOSED),
  ('[', .JUST SQUARE_BRACKET_OPEN),
  (']', .JUST SQUARE_BRACKET_CLOSED),
  ('{', .JUST CURLY_BRACKET_OPEN),
  ('}', .JUST CURLY_BRACKET_CLOSED),
  (',', .JUST COMMA),
  ('.', .SYMBOLS [
    ('.', .SYMBOLS [
      ('.', .JUST THREEDOTS),
      ('=', .JUST CONCATENATE)
    ] TWODOTS)
  ] DOT),
  (';', .JUST SEMICOLON),
  ('+', .SYMBOLS [('=', .JUST INCREASE)] PLUS),
  ('-', .SYMBOLS [('=', .JUST DECREASE)] MINUS),
  ('*', .SYMBOLS [('=', .JUST MULTIPLY)] STAR),
  ('^', .SYMBOLS [('=', .JUST EXPONENTIATE), ('^', .JUST BIT_XOR)] CARET),
  ('#', .JUST HASHTAG),
  ('/', .SYMBOLS [
    ('/', .FUNCTION .readComment),
    ('*', .FUNCTION .readMultilineComment),
    ('=', .JUST DIVIDE),
    ('_', .JUST FLOOR_DIVISION)
  ] SLASH),
  ('%', .SYMBOLS [('=', .JUST MODULATE)] PERCENTUAL),
  ('!', .SYMBOLS [('=', .JUST NOT_EQUAL)] NOT),
  ('~', .JUST BIT_NOT),
  ('=', .SYMBOLS [('=', .JUST EQUAL), ('>', .JUST ARROW)] DEFINE),
  ('<', .SYMBOLS [('=', .JUST SMALLER_EQUAL), ('<', .JUST LEFT_SHIFT)] SMALLER),
  ('>', .SYMBOLS [('=', .JUST BIGGER_EQUAL), ('>', .JUST RIGHT_SHIFT)] BIGGER),
  ('?', .SYMBOLS [
    ('=', .FUNCTION (.warnDeprecated "'?=' is deprecated and was replaced with '&&='")),
    ('>', .JUST SAFE_EXPRESSION),
    ('.', .JUST SAFEDOT),
    (':', .FUNCTION .safeDoubleColon),
    ('[', .JUST SAFE_SQUARE_BRACKET)
  ] QUESTION_MARK),
  ('&', .SYMBOLS [('&', .JUST AND)] BIT_AND),
  (':', .SYMBOLS [
    (':', .JUST DOUBLE_COLON),
    ('=', .FUNCTION (.warnDeprecated "':=' is deprecated and was replaced with '||='"))
  ] COLON),
  ('|', .SYMBOLS [('|', .JUST OR)] BIT_OR),
  ('\n', .FUNCTION .countNewline),
  ('"', .FUNCTION (.readString '"')),
  ('\'', .FUNCTION (.readString '\'')),
  ('`', .FUNCTION .readRawString)
]

inductive KeywordType where
  | JUST (kind : TokenType)
  | LUA (kind : TokenType)
  | ERROR (msg : String)
  | RESERVED (msg : String)
deriving DecidableEq, Repr

/-- The static keyword table `KEYWORDS` (an `AHashMap` in the source;
lookup by exact string). -/
def KEYWORDS : List (String × KeywordType) := [
  ("and", .RESERVED "'and' operators in Clue are made with '&&'"),
  ("not", .RESERVED "'not' operators in Clue are made with '!'"),
  ("or", .RESERVED "'or' operators in Clue are made with '||'"),
  ("do", .RESERVED "'do ... end' blocks in Clue are made like this: '\x7b ... \x7d'"),
  ("end", .RESERVED "code blocks in Clue are closed with '\x7d'"),
  ("function", .RESERVED "functions in Clue are defined with the 'fn' keyword"),
  ("repeat", .RESERVED "'repeat ... until x' loops in Clue are made like this: 'loop \x7b ... \x7d until x'"),
  ("then", .RESERVED "code blocks in Clue are opened with '\x7b'"),
  ("if", .LUA IF),
  ("elseif", .LUA ELSEIF),
  ("else", .LUA ELSE),
  ("for", .LUA FOR),
  ("in", .LUA IN),
  ("while", .LUA WHILE),
  ("until", .LUA UNTIL),
  ("local", .LUA LOCAL),
  ("return", .LUA RETURN),
  ("true", .LUA TRUE),
  ("false", .LUA FALSE),
  ("nil", .LUA NIL),
  ("break", .LUA BREAK),
  ("of", .JUST OF),
  ("with", .JUST WITH),
  ("meta", .JUST META),
  ("global", .JUST GLOBAL),
  ("fn", .JUST FN),
  ("method", .JUST METHOD),
  ("loop", .JUST LOOP),
  ("static", .JUST STATIC),
  ("enum", .JUST ENUM),
  ("continue", .JUST CONTINUE),
  ("try", .JUST TRY),
  ("catch", .JUST CATCH),
  ("match", .JUST MATCH),
  ("default", .JUST DEFAULT),
  ("macro", .ERROR "'macro' is deprecated and was replaced with '@define'"),
  ("constructor", .ERROR "'constructor' is reserved for Clue 4.0 and cannnot be used."),
  ("struct", .ERROR "'struct' is reserved for Clue 4.0 and cannot be used"),
  ("extern", .ERROR "'extern' is reserved for Clue 4.0 and cannot be used")
]

/-- Tests whether `last` is one of the four field-access tokens of the
guard arm in `scan_code`'s keyword match. -/
def dot_like (t : TokenType) : Bool :=
  t = DOT ∨ t = SAFEDOT ∨ t = DOUBLE_COLON ∨ t = SAFE_DOUBLE_COLON

/-- The keyword `match` of `scan_code`, with the source's arm order:
`LUA` and `RESERVED` are matched before the guard
`_ if matches!(i.last, DOT | SAFEDOT | DOUBLE_COLON | SAFE_DOUBLE_COLON)`,
which therefore only redirects `JUST` and `ERROR` keywords to
`IDENTIFIER`. -/
def keyword_token_kind (i : CodeInfo) (ident : String) : KeywordType → TokenType × CodeInfo
  | .LUA kind => (kind, i)
  | .RESERVED e => i.reserved ident e
  | .JUST kind => if dot_like i.last then (IDENTIFIER, i) else (kind, i)
  | .ERROR e =>
    if dot_like i.last then (IDENTIFIER, i)
    else (IDENTIFIER, i.warning e)

def hex_digit_check (c : Char) : Bool :=
  c.isDigit || ('a' ≤ c ∧ c ≤ 'f') || ('A' ≤ c ∧ c ≤ 'F')

def bin_digit_check (c : Char) : Bool :=
  c = '0' || c = '1'

/-- The dispatch of the `scan_code` loop body on a character the symbol
table did not match: whitespace, numbers, identifiers/keywords, or the
unexpected-character diagnostic. -/
def scanDispatch (c : Char) (i : CodeInfo) : CodeInfo :=
  if c.isWhitespace then i
  else if c.isDigit then
    if c = '0' then
      if i.peek 0 = 'x' ∨ i.peek 0 = 'X' then
        CodeInfo.read_number { i with current := i.current + 1 } hex_digit_check false
      else if i.peek 0 = 'b' ∨ i.peek 0 = 'B' then
        CodeInfo.read_number { i with current := i.current + 1 } bin_digit_check false
      else i.read_number Char.isDigit true
    else i.read_number Char.isDigit true
  else if c.isAlpha ∨ c = '_' then
    match List.lookup (i.read_identifier).1 KEYWORDS with
    | some keyword =>
      (keyword_token_kind (i.read_identifier).2 (i.read_identifier).1 keyword).2.add_token
        (keyword_token_kind (i.read_identifier).2 (i.read_identifier).1 keyword).1
    | none => (i.read_identifier).2.add_token IDENTIFIER
  else i.warning ("Unexpected character '" ++ c.toString ++ "'")

/-- One iteration of the `scan_code` main loop (from `i.start = i.current`
through the dispatch on the advanced character). -/
def scanStep (i : CodeInfo) : CodeInfo :=
  let i := { i with start := i.current }
  let c := i.at i.current
  let i := { i with current := i.current + 1 }
  let r := scan_char 4 SYMBOLS c i
  if r.1 then r.2 else scanDispatch c r.2

/-- The `while !i.ended()` main loop of `scan_code`, fuelled.  Every
iteration advances `current` by at least one, so `size + 1` steps always
reach the end. -/
def scanLoop : Nat → CodeInfo → CodeInfo
  | 0, i => i
  | fuel + 1, i => if i.current < i.size then scanLoop fuel (scanStep i) else i

/-- The scanner state after running the main loop on `code`. -/
def scanRun (code : String) (filename : String) : CodeInfo :=
  scanLoop (code.data.length + 1) (CodeInfo.new code filename)

/-- `scan_code`: error summary if any diagnostic was raised, otherwise the
tokens followed by the `EOF` token. -/
def scan_code (code : String) (filename : String) : Except String (List Token) :=
  let i := scanRun code filename
  if i.errored then .error "Cannot continue until the above errors are fixed"
  else .ok ((i.add_literal_token EOF "<end>").tokens)

/-! ## Preprocessor (`preprocessor.rs`) -/

/-- Result type of the preprocessor model: `ok`/`err` are the `Result`
values of the source, `panic` models a `todo!()` panic ( "not yet
implemented"), and `nofuel` marks fuel exhaustion of the embedding (never
reached with the fuel supplied by `preprocess_code`). -/
inductive PRes (α : Type) where
  | ok (val : α)
  | err (msg : String)
  | panic (msg : String)
  | nofuel
deriving DecidableEq, Repr

/-- Whether a `PRes` is a returned error value (as opposed to a success, a
panic, or the embedding's fuel marker). -/
def PRes.isReturnedErr {α : Type} : PRes α → Bool
  | .err _ => true
  | _ => false

instance : Monad PRes where
  pure := .ok
  bind
    | .ok a, f => f a
    | .err e, _ => .err e
    | .panic m, _ => .panic m
    | .nofuel, _ => .nofuel

/-- `error`: prints the location to standard output (dropped here) and
returns the message itself. -/
def pp_error (msg : String) (line : Nat) (filename : String) : String :=
  msg

/-- `expected`. -/
def pp_expected (expected got : String) (line : Nat) (filename : String) : String :=
  pp_error ("Expected '" ++ expected ++ "', got '" ++ got ++ "'") line filename

/-- `expected_before`. -/
def pp_expected_before (expected before : String) (line : Nat) (filename : String) : String :=
  pp_error ("Expected '" ++ expected ++ "' before '" ++ before ++ "'") line filename

/-- `skip_whitespace`: drop leading whitespace, counting newlines. -/
def skip_whitespace : List Char → Nat → List Char × Nat
  | [], line => ([], line)
  | c :: rest, line =>
    if c.isWhitespace then
      skip_whitespace rest (if c = '\n' then line + 1 else line)
    else (c :: rest, line)

/-- `reach`: skip whitespace, then require the character `endc`. -/
def reach (chars : List Char) (endc : Char) (line : Nat) (filename : String) :
    PRes (List Char × Nat) :=
  let (chars, line) := skip_whitespace chars line
  match chars with
  | [] => .err (pp_expected_before (String.mk [endc]) "<end>" line filename)
  | c :: rest =>
    if endc ≠ c then .err (pp_expected (String.mk [endc]) (String.mk [c]) line filename)
    else .ok (rest, line)

/-- `read_with`: the longest prefix satisfying `f`, plus the rest. -/
def read_with (f : Char → Bool) (chars : List Char) : List Char × List Char :=
  (chars.takeWhile f, chars.dropWhile f)

/-- `str::parse::<usize>()` on an identifier word: all-digit and nonempty,
value composed in base 10 (overflow beyond `usize` is checked separately
at the call site). -/
def parse_usize (s : List Char) : Option Nat :=
  if s ≠ [] ∧ s.all Char.isDigit then
    some (s.foldl (fun a c => a * 10 + (c.toNat - 48)) 0)
  else none

/-- `str::to_ascii_lowercase`. -/
def to_ascii_lowercase (s : String) : String :=
  String.mk (s.data.map (fun c => if 'A' ≤ c ∧ c ≤ 'Z' then Char.ofNat (c.toNat + 32) else c))

/-- `read_word`: reads until whitespace. -/
def read_word (chars : List Char) : String × List Char :=
  let (w, r) := read_with (fun c => ¬ c.isWhitespace) chars
  (String.mk w, r)

/-- `assert_word`. -/
def assert_word (chars : List Char) (line : Nat) (filename : String) :
    PRes (String × List Char × Nat) :=
  let (chars, line) := skip_whitespace chars line
  let (word, rest) := read_word chars
  if word = "" then .err (pp_error "Word expected" line filename)
  else .ok (word, rest, line)

/-- `assert_name`. -/
def assert_name (chars : List Char) (line : Nat) (filename : String) :
    PRes (String × List Char × Nat) := do
  let (name, rest, line) ← assert_word chars line filename
  if name.data.contains '=' then
    .err (pp_error "The value's name cannot contain '='" line filename)
  else .ok (name, rest, line)

/-- `read_until`: everything before `endc`, which must be present and is
consumed. -/
def read_until (chars : List Char) (endc : Char) (line : Nat) (filename : String) :
    PRes (List Char × List Char) :=
  let arg := chars.takeWhile (fun c => c ≠ endc)
  match chars.dropWhile (fun c => c ≠ endc) with
  | [] => .err (pp_expected_before (String.mk [endc]) "<end>" line filename)
  | _ :: r => .ok (arg, r)

/-- The scan loop of `read_block`: push every character, count `{`/`}` in
the 8-bit counter `cscope` (u8 wrap-around written out), return the block
without its final `}` when the counter hits zero. -/
def read_block_loop (chars : List Char) (block : List Char) (cscope : Nat) :
    Option (List Char × List Char) :=
  match chars with
  | [] => none
  | c :: rest =>
    let block := block ++ [c]
    if c = '{' then read_block_loop rest block ((cscope + 1) % 256)
    else if c = '}' then
      let cscope := (cscope + 255) % 256
      if cscope = 0 then some (block.dropLast, rest)
      else read_block_loop rest block cscope
    else read_block_loop rest block cscope

/-- `read_block`: reach `{`, then scan to the matching `}` (8-bit nesting
counter); returns the line (only advanced by `reach`), the block body and
the rest of the input. -/
def read_block (chars : List Char) (line : Nat) (filename : String) :
    PRes (Nat × List Char × List Char) := do
  let (chars, line) ← reach chars '{' line filename
  match read_block_loop chars [] 1 with
  | some (block, rest) => .ok (line, block, rest)
  | none => .err (pp_expected_before "\x7d" "<end>" line filename)

/-- `skip_whitespace_backwards` on the reversed emitted code. -/
def skip_whitespace_backwards (rcode : List Char) : List Char :=
  rcode.dropWhile Char.isWhitespace

/-- Phase 1 of `read_pseudos`: scan the reversed code for a `=` that is
not the tail of `==` or `!=`.  The character before that `=` is consumed
by the look-ahead, exactly as in the source; `none` means the stream was
exhausted (the source returns the empty pseudo list). -/
def pseudos_phase1 : List Char → Option (List Char)
  | [] => none
  | c :: rest =>
    if c = '=' then
      match rest with
      | [] => none
      | c2 :: rest2 => if c2 = '!' ∨ c2 = '=' then pseudos_phase1 rest2 else some rest2
    else pseudos_phase1 rest

/-- Phase 2 of `read_pseudos`: repeatedly collect a (possibly empty)
identifier read backwards, skip whitespace backwards, and continue while
the next character is a comma (which is consumed either way).  Every
recursive step consumes at least the comma, so the fuel passed by
`read_pseudos` always suffices. -/
def pseudos_phase2 (fuel : Nat) (rcode : List Char) (acc : List (List Char)) :
    List (List Char) :=
  match fuel with
  | 0 => acc
  | fuel + 1 =>
    let name := (rcode.takeWhile is_identifier).reverse
    let r1 := rcode.dropWhile is_identifier
    let acc2 := acc ++ [name]
    match r1.dropWhile Char.isWhitespace with
    | ',' :: rest => pseudos_phase2 fuel rest acc2
    | _ => acc2

/-- `read_pseudos`: run over the reversed emitted code; the resulting list
holds the right-most assignment target first. -/
def read_pseudos (rcode : List Char) : List (List Char) :=
  match pseudos_phase1 rcode with
  | none => []
  | some rest => pseudos_phase2 (rcode.length + 1) (skip_whitespace_backwards rest) []

def USIZE_MOD : Nat := 18446744073709551616

/-- The pseudo-variable lookup
`pseudos.get(pseudos.len() - index).cloned().unwrap_or(nil)` of
`preprocess_code`, with the `usize` subtraction's release-mode wrap-around
made explicit. -/
def pseudo_substitution (pseudos : List (List Char)) (index : Nat) : List Char :=
  (pseudos[(pseudos.length + (USIZE_MOD - index % USIZE_MOD)) % USIZE_MOD]?).getD
    ['n', 'i', 'l']

/-- The string-literal copy loop of `preprocess_code`: copies up to the
closing delimiter, counting newlines into both `line` and `prevline`; the
character following a `\` is consumed but dropped from the output, as in
the source. -/
def pp_string (fuel : Nat) (delim : Char) (chars : List Char) (code : List Char)
    (line prevline : Nat) : List Char × List Char × Nat × Nat :=
  match fuel with
  | 0 => (code, chars, line, prevline)
  | fuel + 1 =>
    match chars with
    | [] => (code, [], line, prevline)
    | sc :: rest =>
      if sc = '\n' then
        let code := code ++ [sc]
        if sc = delim then (code, rest, line + 1, prevline + 1)
        else pp_string fuel delim rest code (line + 1) (prevline + 1)
      else if sc = '\\' then
        let rest2 := rest.drop 1
        let code := code ++ [sc]
        if sc = delim then (code, rest2, line, prevline)
        else pp_string fuel delim rest2 code line prevline
      else
        let code := code ++ [sc]
        if sc = delim then (code, rest, line, prevline)
        else pp_string fuel delim rest code line prevline

/-- The `/* ... */` skip loop of `preprocess_code`: read
whitespace-delimited words until one ends in `*/`; running out of input is
an unterminated comment. -/
def pp_skip_comment (fuel : Nat) (chars : List Char) (line : Nat) (filename : String) :
    PRes (List Char × Nat) :=
  match fuel with
  | 0 => .nofuel
  | fuel + 1 =>
    let (chars1, line1) := skip_whitespace chars line
    let (word, rest) := read_with (fun c => ¬ c.isWhitespace) chars1
    if word = [] ∨ ¬ List.isSuffixOf "*/".data word then
      match rest with
      | [] => .err (pp_error "Unterminated comment" line1 filename)
      | _ => pp_skip_comment fuel rest line1 filename
    else .ok (rest, line1)

/-- Lookup in the `values` map (`AHashMap<String, LinkedString>`). -/
def values_get (values : List (String × List Char)) (name : String) : Option (List Char) :=
  List.lookup name values

/-- `AHashMap::insert` (unique keys). -/
def values_insert (values : List (String × List Char)) (name : String) (v : List Char) :
    List (String × List Char) :=
  (name, v) :: values.filter (fun p => p.1 ≠ name)

/-- `AHashMap::remove`. -/
def values_remove (values : List (String × List Char)) (name : String) :
    List (String × List Char) :=
  values.filter (fun p => p.1 ≠ name)

mutual

/-- The body of `preprocess_code`: the `while let Some(c) = chars.next()`
loop.  State: remaining input, emitted code, the `prev` flag, the shared
line counter and the `prevline` marker, the cached pseudo list, and the
`values` map.  `filename` is carried for fidelity (the source only prints
it); `env`/`os` stand for `env::var` and `env::consts::OS`. -/
def preprocessLoop (fuel : Nat) (chars : List Char) (code : List Char) (prev : Bool)
    (line prevline : Nat) (pseudos : Option (List (List Char)))
    (values : List (String × List Char)) (filename : String)
    (env : String → Option String) (os : String) : PRes (List Char × Bool × Nat) :=
  match fuel with
  | 0 => .nofuel
  | fuel + 1 =>
    match chars with
    | [] => .ok (code, prev, line)
    | c :: rest =>
      if c = '\n' then
        let code := code ++ List.replicate (line - prevline + 1) '\n'
        preprocessLoop fuel rest code prev (line + 1) (line + 1) pseudos values
          filename env os
      else if c = '@' then
        let (directive, rest) := read_word rest
        if directive = "ifos" then
          match assert_word rest line filename with
          | .ok (target, rest, line) =>
            match keep_block fuel rest code (os = to_ascii_lowercase target) line filename
                env os with
            | .ok (cond, code, rest, line) =>
              preprocessLoop fuel rest code cond line prevline pseudos values
                filename env os
            | .err e => .err e
            | .panic m => .panic m
            | .nofuel => .nofuel
          | .err e => .err e
          | .panic m => .panic m
          | .nofuel => .nofuel
        else if directive = "ifdef" then
          match assert_word rest line filename with
          | .ok (var, rest, line) =>
            let conditon := (values_get values var).isSome ∨ (env var).isSome
            match keep_block fuel rest code conditon line filename env os with
            | .ok (cond, code, rest, line) =>
              preprocessLoop fuel rest code cond line prevline pseudos values
                filename env os
            | .err e => .err e
            | .panic m => .panic m
            | .nofuel => .nofuel
          | .err e => .err e
          | .panic m => .panic m
          | .nofuel => .nofuel
        else if directive = "ifcmp" then
          match read_arg fuel rest line filename env os with
          | .ok (arg1, _, rest, line) =>
            match assert_word rest line filename with
            | .ok (condition, rest, line) =>
              match read_arg fuel rest line filename env os with
              | .ok (arg2, _, rest, line) =>
                match
                  if condition = "==" then .ok (decide (arg1 = arg2))
                  else if condition = "!=" then .ok (decide (arg1 ≠ arg2))
                  else PRes.err (pp_expected "==" condition line filename) with
                | .ok result =>
                  match keep_block fuel rest code result line filename env os with
                  | .ok (cond, code, rest, line) =>
                    preprocessLoop fuel rest code cond line prevline pseudos values
                      filename env os
                  | .err e => .err e
                  | .panic m => .panic m
                  | .nofuel => .nofuel
                | .err e => .err e
                | .panic m => .panic m
                | .nofuel => .nofuel
              | .err e => .err e
              | .panic m => .panic m
              | .nofuel => .nofuel
            | .err e => .err e
            | .panic m => .panic m
            | .nofuel => .nofuel
          | .err e => .err e
          | .panic m => .panic m
          | .nofuel => .nofuel
        else if directive = "if" then .panic "not yet implemented"
        else if directive = "else" then
          match keep_block fuel rest code (¬ prev) line filename env os with
          | .ok (cond, code, rest, line) =>
            preprocessLoop fuel rest code cond line prevline pseudos values
              filename env os
          | .err e => .err e
          | .panic m => .panic m
          | .nofuel => .nofuel
        else if directive = "define" then
          match assert_name rest line filename with
          | .ok (name, rest, line) =>
            match read_arg fuel rest line filename env os with
            | .ok (value, _, rest, line) =>
              preprocessLoop fuel rest code true line prevline pseudos
                (values_insert values name value) filename env os
            | .err e => .err e
            | .panic m => .panic m
            | .nofuel => .nofuel
          | .err e => .err e
          | .panic m => .panic m
          | .nofuel => .nofuel
        else if directive = "undef" then
          match assert_name rest line filename with
          | .ok (name, rest, line) =>
            preprocessLoop fuel rest code ((values_get values name).isSome) line prevline
              pseudos (values_remove values name) filename env os
          | .err e => .err e
          | .panic m => .panic m
          | .nofuel => .nofuel
        else if directive = "error" then
          match read_arg fuel rest line filename env os with
          | .ok (msg, _, _, line) => .err (pp_error (String.mk msg) line filename)
          | .err e => .err e
          | .panic m => .panic m
          | .nofuel => .nofuel
        else if directive = "warning" ∨ directive = "print" then
          match read_arg fuel rest line filename env os with
          | .ok (_, result, rest, line) =>
            preprocessLoop fuel rest code result line prevline pseudos values
              filename env os
          | .err e => .err e
          | .panic m => .panic m
          | .nofuel => .nofuel
        else if directive = "execute" ∨ directive = "eval" ∨ directive = "include" ∨
            directive = "macro" then .panic "not yet implemented"
        else if directive = "" then .err (pp_error "Expected directive name" line filename)
        else .err (pp_error ("Unknown directive '" ++ directive ++ "'") line filename)
      else if c = '$' then
        let (nameChars, rest) := read_with is_identifier rest
        let nameL := if nameChars.isEmpty then ['1'] else nameChars
        let name := String.mk nameL
        match parse_usize nameL with
        | some index =>
          if index < USIZE_MOD then
            let ps := match pseudos with
              | none => read_pseudos code.reverse
              | some ps => ps
            let var := pseudo_substitution ps index
            preprocessLoop fuel rest (code ++ var) prev line prevline (some ps) values
              filename env os
          else
            match values_get values name with
            | some value =>
              preprocessLoop fuel rest (code ++ value) prev line prevline pseudos values
                filename env os
            | none =>
              match env name with
              | some value =>
                preprocessLoop fuel rest (code ++ value.data) prev line prevline pseudos
                  values filename env os
              | none => .err (pp_error ("Value '" ++ name ++ "' not found") line filename)
        | none =>
          match values_get values name with
          | some value =>
            preprocessLoop fuel rest (code ++ value) prev line prevline pseudos values
              filename env os
          | none =>
            match env name with
            | some value =>
              preprocessLoop fuel rest (code ++ value.data) prev line prevline pseudos
                values filename env os
            | none => .err (pp_error ("Value '" ++ name ++ "' not found") line filename)
      else if c = '\'' ∨ c = '"' ∨ c = '`' then
        let (code, rest, line, prevline) :=
          pp_string (rest.length + 1) c rest (code ++ [c]) line prevline
        preprocessLoop fuel rest code prev line prevline pseudos values filename env os
      else if c = '/' then
        match rest with
        | [] => preprocessLoop fuel [] code prev line prevline pseudos values filename env os
        | nextc :: rest2 =>
          if nextc = '/' then
            preprocessLoop fuel (rest2.dropWhile (fun x => x ≠ '\n')) code prev line
              prevline pseudos values filename env os
          else if nextc = '*' then
            match pp_skip_comment fuel rest2 line filename with
            | .ok (rest3, line) =>
              preprocessLoop fuel rest3 code.dropLast prev line prevline pseudos values
                filename env os
            | .err e => .err e
            | .panic m => .panic m
            | .nofuel => .nofuel
          else
            preprocessLoop fuel rest (code ++ ['/']) prev line prevline pseudos values
              filename env os
      else if c = '\\' then
        match rest with
        | [] =>
          preprocessLoop fuel [] (code ++ ['\\']) prev line prevline pseudos values
            filename env os
        | nc :: rest2 =>
          if nc = '@' ∨ nc = '$' then
            preprocessLoop fuel rest2 (code ++ [nc]) prev line prevline pseudos values
              filename env os
          else
            preprocessLoop fuel rest (code ++ ['\\']) prev line prevline pseudos values
              filename env os
      else if c = '=' then
        match rest with
        | [] =>
          preprocessLoop fuel [] (code ++ ['=']) prev line prevline pseudos values
            filename env os
        | nc :: rest2 =>
          if nc = '=' ∨ nc = '>' then
            preprocessLoop fuel rest2 (code ++ ['=', nc]) prev line prevline pseudos values
              filename env os
          else
            preprocessLoop fuel rest (code ++ ['=']) prev line prevline none values
              filename env os
      else if c = '!' ∨ c = '>' ∨ c = '<' then
        match rest with
        | [] =>
          preprocessLoop fuel [] (code ++ [c]) prev line prevline pseudos values
            filename env os
        | nc :: rest2 =>
          if nc = '=' then
            preprocessLoop fuel rest2 (code ++ [c, nc]) prev line prevline pseudos values
              filename env os
          else
            preprocessLoop fuel rest (code ++ [c]) prev line prevline pseudos values
              filename env os
      else
        preprocessLoop fuel rest (code ++ [c]) prev line prevline pseudos values
          filename env os
termination_by structural fuel

/-- `keep_block`: read a brace block; if `cond`, recursively preprocess it
with a fresh `values` map and a block-local line counter (discarded), else
replace it by its newline count.  Returns `cond`. -/
def keep_block (fuel : Nat) (chars : List Char) (code : List Char) (cond : Bool)
    (line : Nat) (filename : String) (env : String → Option String) (os : String) :
    PRes (Bool × List Char × List Char × Nat) :=
  match fuel with
  | 0 => .nofuel
  | fuel + 1 =>
    match read_block chars line filename with
    | .ok (blockline, block, rest) =>
      if cond then
        match preprocessLoop fuel block [] true blockline blockline none [] filename
            env os with
        | .ok (sub, _, _) => .ok (cond, code ++ sub, rest, blockline)
        | .err e => .err e
        | .panic m => .panic m
        | .nofuel => .nofuel
      else
        .ok (cond, code ++ List.replicate (block.count '\n') '\n', rest, blockline)
    | .err e => .err e
    | .panic m => .panic m
    | .nofuel => .nofuel
termination_by structural fuel

/-- `read_arg`: a double-quoted argument with `\r`, `\n`, `\t` removed,
recursively preprocessed with a fresh `values` map. -/
def read_arg (fuel : Nat) (chars : List Char) (line : Nat) (filename : String)
    (env : String → Option String) (os : String) :
    PRes (List Char × Bool × List Char × Nat) :=
  match fuel with
  | 0 => .nofuel
  | fuel + 1 =>
    match reach chars '"' line filename with
    | .ok (chars, line) =>
      match read_until chars '"' line filename with
      | .ok (rawarg, rest) =>
        let rawarg := rawarg.filter (fun c => ¬ (c = '\r' ∨ c = '\n' ∨ c = '\t'))
        match preprocessLoop fuel rawarg [] true line line none [] filename env os with
        | .ok (arg, result, line) => .ok (arg, result, rest, line)
        | .err e => .err e
        | .panic m => .panic m
        | .nofuel => .nofuel
      | .err e => .err e
      | .panic m => .panic m
      | .nofuel => .nofuel
    | .err e => .err e
    | .panic m => .panic m
    | .nofuel => .nofuel
termination_by structural fuel

end

/-- `preprocess_code` (the public entry point): fuel `length + 1` covers
every execution, since each loop iteration consumes at least one input
character and recursive calls work on strictly shorter texts.  Returns the
emitted code, the final `prev` flag and the updated line counter. -/
def preprocess_code (rawcode : String) (pseudos : Option (List (List Char)))
    (values : List (String × List Char)) (line : Nat) (filename : String)
    (env : String → Option String) (os : String) : PRes (List Char × Bool × Nat) :=
  preprocessLoop (rawcode.data.length + 1) rawcode.data [] true line line pseudos values
    filename env os

/-! ## Analyzer (`analyze_file` in `preprocessor.rs`)

The analyzer reads a file as bytes; here it takes the byte list directly
(file I/O above the byte layer is out of scope).  Bytes are `Nat`s below
256; `buf[0] as char` is `Char.ofNat`.  The source matches the read
character against ASCII literals, which is the same as matching the byte
against 10 (`\n`), 39 (`'`), 34 (`"`), 96 (backtick), 47 (`/`) and 92
(`\`), so the embedding matches on the byte. -/

/-- Errors of the analyzer: `lexical` is an error built by
`analyze_error` (message plus the line it is annotated with), `decode` is
an error bubbled up from the UTF-8 decoder, and `nofuel` is the
embedding's fuel marker (reached only where the source diverges). -/
inductive AError where
  | lexical (msg : String) (line : Nat)
  | decode (msg : String)
  | nofuel
deriving DecidableEq, Repr

/-- One step of the `utf8_decode` crate's decoder: decode the first UTF-8
scalar of the byte list (standard UTF-8: ASCII direct, 2-4 byte sequences
with `10xxxxxx` continuations, result validated by `char::from_u32`).
`none` means the input was empty. -/
def utf8_decode_next (bs : List Nat) : Option (Except String (Char × List Nat)) :=
  match bs with
  | [] => none
  | b :: rest =>
    if b < 128 then some (.ok (Char.ofNat b, rest))
    else if b &&& 0xE0 = 0xC0 then
      match rest with
      | [] => some (.error "unexpected end of UTF-8 sequence")
      | b1 :: rest1 =>
        if b1 &&& 0xC0 = 0x80 then
          let cp := (b &&& 0x1F) * 64 + (b1 &&& 0x3F)
          if cp < 0x110000 ∧ ¬ (0xD800 ≤ cp ∧ cp < 0xE000) then
            some (.ok (Char.ofNat cp, rest1))
          else some (.error "invalid UTF-8 sequence")
        else some (.error "invalid UTF-8 sequence")
    else if b &&& 0xF0 = 0xE0 then
      match rest with
      | b1 :: b2 :: rest2 =>
        if b1 &&& 0xC0 = 0x80 ∧ b2 &&& 0xC0 = 0x80 then
          let cp := (b &&& 0x0F) * 4096 + (b1 &&& 0x3F) * 64 + (b2 &&& 0x3F)
          if cp < 0x110000 ∧ ¬ (0xD800 ≤ cp ∧ cp < 0xE000) then
            some (.ok (Char.ofNat cp, rest2))
          else some (.error "invalid UTF-8 sequence")
        else some (.error "invalid UTF-8 sequence")
      | _ => some (.error "unexpected end of UTF-8 sequence")
    else if b &&& 0xF8 = 0xF0 then
      match rest with
      | b1 :: b2 :: b3 :: rest3 =>
        if b1 &&& 0xC0 = 0x80 ∧ b2 &&& 0xC0 = 0x80 ∧ b3 &&& 0xC0 = 0x80 then
          let cp := (b &&& 0x07) * 262144 + (b1 &&& 0x3F) * 4096 +
            (b2 &&& 0x3F) * 64 + (b3 &&& 0x3F)
          if cp < 0x110000 ∧ ¬ (0xD800 ≤ cp ∧ cp < 0xE000) then
            some (.ok (Char.ofNat cp, rest3))
          else some (.error "invalid UTF-8 sequence")
        else some (.error "invalid UTF-8 sequence")
      | _ => some (.error "unexpected end of UTF-8 sequence")
    else some (.error "invalid UTF-8 sequence")

/-- `BufRead::read_until`: bytes up to and including the delimiter (or all
remaining bytes at end of input). -/
def bytes_read_until (delim : Nat) : List Nat → List Nat × List Nat
  | [] => ([], [])
  | b :: rest =>
    if b = delim then ([b], rest)
    else
      let (t, r) := bytes_read_until delim rest
      (b :: t, r)

/-- The string-literal re-read loop of `analyze_file`: re-read past
delimiters escaped by a preceding `\` (byte 92).  At end of input with the
condition still true the source loops forever; the fuel marker stands for
that divergence. -/
def raw_string_loop (fuel : Nat) (delim : Nat) (bs : List Nat) (rawstring : List Nat) :
    Except AError (List Nat × List Nat) :=
  match fuel with
  | 0 => .error .nofuel
  | fuel + 1 =>
    let (t, rest) := bytes_read_until delim bs
    let rawstring := rawstring ++ t
    if rawstring.length ≥ 2 ∧ rawstring.getD (rawstring.length - 2) 0 = 92 then
      raw_string_loop fuel delim rest rawstring
    else .ok (rawstring, rest)

/-- The `Decoder` iteration of the string branch: UTF-8 decode every byte
of the raw string, counting newlines and appending to the output. -/
def decode_append (fuel : Nat) (bs : List Nat) (code : List Char) (line : Nat) :
    Except AError (List Char × Nat) :=
  match fuel with
  | 0 => .error .nofuel
  | fuel + 1 =>
    match utf8_decode_next bs with
    | none => .ok (code, line)
    | some (.error e) => .error (.decode e)
    | some (.ok (c, rest)) =>
      decode_append fuel rest (code ++ [c]) (if c = '\n' then line + 1 else line)

/-- The block-comment loop of `analyze_file`: `read_until('*')` collecting
into `newlines`, then read one byte; `/` ends the comment, end of input is
reported (`none`), and any other byte is read but dropped (so a newline
right after a `*` is lost). -/
def block_comment_loop (fuel : Nat) (bs : List Nat) (newlines : List Nat) :
    Except AError (List Nat × Option (List Nat)) :=
  match fuel with
  | 0 => .error .nofuel
  | fuel + 1 =>
    let (t, rest) := bytes_read_until 42 bs
    let newlines := newlines ++ t
    match rest with
    | [] => .ok (newlines, none)
    | fc :: rest2 =>
      if fc = 47 then .ok (newlines, some rest2)
      else block_comment_loop fuel rest2 newlines

/-- `add_newlines`: emit a `\n` (and count a line) for every newline byte
collected from a block comment. -/
def add_newlines (code : List Char) (newlines : List Nat) (line : Nat) :
    List Char × Nat :=
  match newlines with
  | [] => (code, line)
  | b :: rest =>
    if b = 10 then add_newlines (code ++ ['\n']) rest (line + 1)
    else add_newlines code rest line

/-- The non-ASCII branch of `analyze_file`'s loop: read up to three more
bytes into a zero-initialized buffer, UTF-8 decode, and always fail (with
the decoded scalar in the message when decoding succeeds). -/
def analyze_invalid (b : Nat) (rest : List Nat) (line : Nat) : Except AError (List Char) :=
  let buf := rest.take 3 ++ List.replicate (3 - rest.length) 0
  match utf8_decode_next (b :: buf) with
  | some (.ok (c, _)) =>
    .error (.lexical ("Invalid character '" ++ c.toString ++ "'") line)
  | some (.error e) => .error (.decode e)
  | none => .error (.lexical "Invalid character '�'" line)

mutual

/-- The main loop of `analyze_file` (its string-literal branch and its
`/` branch are the two helpers below, and its non-ASCII branch is
`analyze_invalid`). -/
def analyze_loop (fuel : Nat) (bs : List Nat) (code : List Char) (line : Nat) :
    Except AError (List Char) :=
  match fuel with
  | 0 => .error .nofuel
  | fuel + 1 =>
    match bs with
    | [] => .ok code
    | b :: rest =>
      if b = 10 then analyze_loop fuel rest (code ++ ['\n']) (line + 1)
      else if b = 39 ∨ b = 34 ∨ b = 96 then
        analyze_string fuel b rest (code ++ [Char.ofNat b]) line
      else if b = 47 then analyze_slash fuel rest code line
      else if b < 128 then analyze_loop fuel rest (code ++ [Char.ofNat b]) line
      else analyze_invalid b rest line
termination_by structural fuel

/-- The string-literal branch of the loop. -/
def analyze_string (fuel : Nat) (b : Nat) (rest : List Nat) (code : List Char)
    (line : Nat) : Except AError (List Char) :=
  match fuel with
  | 0 => .error .nofuel
  | fuel + 1 =>
    match raw_string_loop (fuel + 1) b rest [] with
    | .error e => .error e
    | .ok (rawstring, rest) =>
      match decode_append (fuel + 1) rawstring code line with
      | .error e => .error e
      | .ok (code, line) => analyze_loop fuel rest code line
termination_by structural fuel

/-- The `/` branch of the loop: line comment, block comment, or a plain
slash (also pushed when the input ends right after it). -/
def analyze_slash (fuel : Nat) (rest : List Nat) (code : List Char) (line : Nat) :
    Except AError (List Char) :=
  match fuel with
  | 0 => .error .nofuel
  | fuel + 1 =>
    match rest with
    | [] => analyze_loop fuel [] (code ++ [Char.ofNat 47]) line
    | nc :: rest2 =>
      if nc = 47 then
        let (_, rest3) := bytes_read_until 10 rest2
        analyze_loop fuel rest3 (code ++ ['\n']) (line + 1)
      else if nc = 42 then
        match block_comment_loop (fuel + 1) rest2 [] with
        | .error e => .error e
        | .ok (newlines, none) =>
          let (_, line2) := add_newlines code newlines line
          .error (.lexical "Unterminated comment" line2)
        | .ok (newlines, some rest3) =>
          let (code2, line2) := add_newlines code newlines line
          analyze_loop fuel rest3 code2 line2
      else analyze_loop fuel (nc :: rest2) (code ++ [Char.ofNat 47]) line
termination_by structural fuel

end

/-- `analyze_file` on the file's bytes. -/
def analyze_file (bytes : List Nat) : Except AError String :=
  (analyze_loop (2 * bytes.length + 2) bytes [] 1).map (fun l => String.mk l)

/-! ## Target-language long-bracket decoding (spec-modelled)

The decoding side of raw-string transcoding is the target language's
(Lua's) parser, which is not part of this repository. -/

/-- Split a list at the first occurrence of `pat`: the part before it and
the part after it, or `none` when `pat` does not occur. -/
def split_at_first (pat : List Char) : List Char → Option (List Char × List Char)
  | [] => if pat.isEmpty then some ([], []) else none
  | c :: t =>
    if pat.isPrefixOf (c :: t) then some ([], (c :: t).drop pat.length)
    else
      match split_at_first pat t with
      | some (pre, post) => some (c :: pre, post)
      | none => none

/-- Modelled from the spec: the target language's long-bracket string
literal (glossary: `[=*[ ... ]=*]`).  The literal opens with `[`+`=`×k+`[`
and its content extends to the first occurrence of the closing delimiter
`]`+`=`×k+`]`, which must end the literal. -/
def lua_long_bracket_decode (s : List Char) : Option (List Char) :=
  match s with
  | '[' :: rest =>
    let k := (rest.takeWhile (fun c => c = '=')).length
    match rest.dropWhile (fun c => c = '=') with
    | '[' :: content =>
      match split_at_first (closing_bracket k) content with
      | some (pre, post) => if post.isEmpty then some pre else none
      | none => none
    | _ => none
  | _ => none

/-! ## Specification-side definitions used by the theorems -/

/-- Matching-brace splitter with an unbounded (Nat) nesting counter: the
reference semantics for `read_block_loop`.  `some (block, rest)` means the
input splits as `block ++ '\x7d' :: rest` with the `\x7d` matching an
opening brace at depth `d`; `none` means the input ends first. -/
def nat_block_split : List Char → Nat → Option (List Char × List Char)
  | [], _ => none
  | c :: rest, d =>
    if c = '{' then (nat_block_split rest (d + 1)).map (fun p => (c :: p.1, p.2))
    else if c = '}' then
      if d = 1 then some ([], rest)
      else (nat_block_split rest (d - 1)).map (fun p => (c :: p.1, p.2))
    else (nat_block_split rest d).map (fun p => (c :: p.1, p.2))

/-- An assignment target list `t1, t2, ..., tn` as source text. -/
def join_targets : List (List Char) → List Char
  | [] => []
  | [n] => n
  | n :: ns => n ++ ',' :: ' ' :: join_targets ns

/-- The invariant of the scanner state used for the error-summary claim:
no `EOF` token is emitted during the scan loop, and `errored` is set
exactly when a diagnostic has been printed. -/
def scan_inv (i : CodeInfo) : Prop :=
  (∀ t ∈ i.tokens, t.kind ≠ EOF) ∧ (i.errored = true ↔ i.printed ≠ [])

/-- Whether every token kind reachable in a symbol-table entry (within
`fuel` levels) differs from `EOF`. -/
def sym_no_eof : Nat → SymbolType → Bool
  | _, .JUST k => k != EOF
  | _, .FUNCTION _ => true
  | 0, .SYMBOLS _ _ => false
  | fuel + 1, .SYMBOLS m d => (d != EOF) && m.all (fun p => sym_no_eof fuel p.2)

/-- Whether a keyword-table entry carries a token kind other than `EOF`. -/
def kw_no_eof : KeywordType → Bool
  | .JUST k => k != EOF
  | .LUA k => k != EOF
  | .ERROR _ => true
  | .RESERVED _ => true

/-! ## Theorems settling the claims -/

/-- C1, counterexample.  The spec's worked example is wrong on the code:
preprocessing `a, b = 1, 2\n$1 = $2` yields `a, b = 1, 2\na = nil`, not
`a, b = 1, 2\nb = a`: `$1` resolves to the left-most target `a`, and the
`=` emitted on the second line invalidates the pseudo cache, so `$2`
re-scans `a, b = 1, 2\na = ` (collecting only `a`) and falls back to
`nil`. -/
theorem C1_example_counterexample :
    preprocess_code "a, b = 1, 2\n$1 = $2" none [] 1 "main.clue" (fun _ => none)
      "linux" = .ok ("a, b = 1, 2\na = nil".data, true, 2) ∧
    "a, b = 1, 2\na = nil".data ≠ "a, b = 1, 2\nb = a".data := by
  exact ⟨rfl, by decide⟩

/-- C2, counterexample.  On the bytes `C3 A9` (a valid two-byte UTF-8
scalar, `é`) outside any string, the analyzer neither passes the decoded
character through nor reports `Invalid character '�'`: it always returns
an error, and the message carries the successfully decoded scalar. -/
theorem C2_nonascii_counterexample :
    analyze_file [0xC3, 0xA9] = .error (.lexical "Invalid character 'é'" 1) ∧
    (analyze_file [0xC3, 0xA9]).toOption = none ∧
    ("Invalid character 'é'" : String) ≠ "Invalid character '�'" := by
  exact ⟨rfl, rfl, by decide⟩

/-- C3, counterexample.  Scanning `a.if` emits the keyword token `IF` for
the word after the `DOT`, not an `IDENTIFIER`: the `LUA` match arm
precedes the `DOT`-guard arm in `scan_code`'s keyword match. -/
theorem C3_dot_keyword_counterexample :
    scan_code "a.if" "main.clue" =
      .ok [⟨IDENTIFIER, "a", 1⟩, ⟨DOT, ".", 1⟩, ⟨IF, "if", 1⟩, ⟨EOF, "<end>", 1⟩] ∧
    IF ≠ IDENTIFIER := by
  exact ⟨rfl, by decide⟩

/-- C4, counterexample.  `@if` is recognized but hits `todo!()`: the
preprocessor panics with `not yet implemented` instead of reporting a
diagnostic as a returned error value. -/
theorem C4_todo_counterexample :
    preprocess_code "@if" none [] 1 "main.clue" (fun _ => none) "linux" =
      .panic "not yet implemented" ∧
    (preprocess_code "@if" none [] 1 "main.clue" (fun _ => none) "linux").isReturnedErr
      = false := by
  exact ⟨rfl, rfl⟩

/-- C4, amended.  Each of `@if`, `@execute`, `@eval`, `@include` and
`@macro` is recognized by name and reaches `todo!()`, which panics with
the message `not yet implemented` (aborting the process) rather than
returning an error value. -/
theorem C4_todo_amended :
    preprocess_code "@if x" none [] 1 "main.clue" (fun _ => none) "linux" =
      .panic "not yet implemented" ∧
    preprocess_code "@execute" none [] 1 "main.clue" (fun _ => none) "linux" =
      .panic "not yet implemented" ∧
    preprocess_code "@eval" none [] 1 "main.clue" (fun _ => none) "linux" =
      .panic "not yet implemented" ∧
    preprocess_code "@include" none [] 1 "main.clue" (fun _ => none) "linux" =
      .panic "not yet implemented" ∧
    preprocess_code "@macro" none [] 1 "main.clue" (fun _ => none) "linux" =
      .panic "not yet implemented" := by
  exact ⟨rfl, rfl, rfl, rfl, rfl⟩

/-- C5, code bug.  For the `@`/`$`-free input `ab/* */ c` the claim
requires the output `ab c` (the comment collapses to its zero newlines),
but `preprocess_code` pops the last emitted character when it enters a
block comment (`code.pop_back()` without having pushed the `/`), so the
`b` before the comment is deleted and the output is `a c`. -/
theorem C5_comment_popback_bug :
    preprocess_code "ab/* */ c" none [] 1 "main.clue" (fun _ => none) "linux" =
      .ok ("a c".data, true, 1) ∧
    "a c".data ≠ "ab c".data := by
  exact ⟨rfl, by decide⟩

/-- C6, code bug.  The input `/*\n*\n*/` has two newlines, but the
analyzer's block-comment loop discards the byte it reads after each `*`
when that byte is not `/` — here a newline — so `analyze` emits only one
newline, and the preprocessor preserves that count. -/
theorem C6_newline_loss_bug :
    analyze_file ("/*\n*\n*/".data.map Char.toNat) = .ok "\n" ∧
    "\n".data.count '\n' = 1 ∧
    "/*\n*\n*/".data.count '\n' = 2 ∧
    preprocess_code "\n" none [] 1 "main.clue" (fun _ => none) "linux" =
      .ok ("\n".data, true, 2) ∧
    "\n".data.count '\n' ≠ "/*\n*\n*/".data.count '\n' := by
  exact ⟨rfl, by decide, by decide, rfl, by decide⟩

/-- C7, counterexample.  The typed-suffix check is case-sensitive:
scanning `0xFFuL` records no diagnostic at all — the `uL` is left
unconsumed and scans as an identifier after the number `0xFF`. -/
theorem C7_suffix_case_counterexample :
    scan_code "0xFFuL" "main.clue" =
      .ok [⟨NUMBER, "0xFF", 1⟩, ⟨IDENTIFIER, "uL", 1⟩, ⟨EOF, "<end>", 1⟩] ∧
    (scanRun "0xFFuL" "main.clue").printed = [] := by
  exact ⟨rfl, rfl⟩

/-- C7, amended.  The suffix rule acts on the exact uppercase spellings:
`LL` and `ULL` are consumed into the number lexeme, `UL` without a final
`L` records `Malformed number` (so `0xFFUL`, with a capital `U`, errors),
and any other letter sequence — such as `uL` — is left unconsumed with no
diagnostic. -/
theorem C7_suffix_case_amended :
    scan_code "0xFFUL" "main.clue" =
      .error "Cannot continue until the above errors are fixed" ∧
    (scanRun "0xFFUL" "main.clue").printed = ["Malformed number"] ∧
    scan_code "0xFFULL" "main.clue" =
      .ok [⟨NUMBER, "0xFFULL", 1⟩, ⟨EOF, "<end>", 1⟩] ∧
    scan_code "0xFFLL" "main.clue" =
      .ok [⟨NUMBER, "0xFFLL", 1⟩, ⟨EOF, "<end>", 1⟩] ∧
    scan_code "0xFFuL" "main.clue" =
      .ok [⟨NUMBER, "0xFF", 1⟩, ⟨IDENTIFIER, "uL", 1⟩, ⟨EOF, "<end>", 1⟩] := by
  exact ⟨rfl, rfl, rfl, rfl, rfl⟩

/-- C8, code bug.  For the raw-string body `]]]=` the scanner picks
bracket level `k = 1` (the body contains `]]` and does not end in `]`),
and indeed the closing delimiter `]=]` does not occur inside the emitted
body — but it does occur straddling the boundary between the body and the
closing delimiter, so the emitted literal `[=[]]]=]=]` terminates early in
the target language and does not decode back to the body. -/
theorem C8_roundtrip_bug :
    scan_code "`]]]=`" "main.clue" =
      .ok [⟨STRING, "[=[]]]=]=]", 1⟩, ⟨EOF, "<end>", 1⟩] ∧
    raw_lexeme "]]]=".data = "[=[]]]=]=]".data ∧
    has_infix (closing_bracket 1) (unescape_raw "]]]=".data) = false ∧
    lua_long_bracket_decode "[=[]]]=]=]".data = none ∧
    lua_long_bracket_decode "[=[]]]=]=]".data ≠ some "]]]=".data := by
  refine ⟨rfl, rfl, rfl, rfl, ?_⟩
  intro h
  rw [show lua_long_bracket_decode "[=[]]]=]=]".data = none from rfl] at h
  exact Option.noConfusion h

theorem skip_whitespace_to_brace (ws body : List Char) (line : Nat)
    (hws : ∀ c ∈ ws, c.isWhitespace = true) :
    skip_whitespace (ws ++ '{' :: body) line = ('{' :: body, line + ws.count '\n') := by
  induction ws generalizing line with
  | nil => simp [skip_whitespace]
  | cons a t ih =>
    have ha := hws a (by simp)
    have ht : ∀ c ∈ t, c.isWhitespace = true := fun c hc => hws c (by simp [hc])
    rw [List.cons_append, skip_whitespace]
    simp only [ha, if_true]
    rw [ih _ ht]
    by_cases han : a = '\n'
    · simp [han, List.count_cons]
      omega
    · simp [han, List.count_cons]

theorem read_block_loop_eq_nat (chars : List Char) : ∀ (acc : List Char) (cscope : Nat),
    1 ≤ cscope →
    (∀ i, i ≤ chars.length →
      cscope + (chars.take i).count '{' ≤ 255 + (chars.take i).count '}') →
    read_block_loop chars acc cscope =
      (nat_block_split chars cscope).map (fun p => (acc ++ p.1, p.2)) := by
  induction chars with
  | nil =>
    intro acc cscope h1 H
    simp [read_block_loop, nat_block_split]
  | cons a t ih =>
    intro acc cscope h1 H
    have hbound : cscope ≤ 255 := by
      have := H 0 (by omega)
      simpa using this
    by_cases ha : a = '{'
    · subst ha
      have hplus : cscope + 1 ≤ 255 := by
        have := H 1 (by simp)
        simp [List.count_cons] at this
        omega
      have hmod : (cscope + 1) % 256 = cscope + 1 := Nat.mod_eq_of_lt (by omega)
      have Ht : ∀ i, i ≤ t.length →
          (cscope + 1) + (t.take i).count '{' ≤ 255 + (t.take i).count '}' := by
        intro i hi
        have := H (i + 1) (by simp; omega)
        simp [List.count_cons] at this
        omega
      rw [read_block_loop]
      simp only [if_pos rfl, hmod]
      rw [ih (acc ++ ['{']) (cscope + 1) (by omega) Ht]
      rw [nat_block_split]
      simp only [if_pos rfl]
      cases nat_block_split t (cscope + 1) <;> simp
    · by_cases hb : a = '}'
      · subst hb
        have hmod : (cscope + 255) % 256 = cscope - 1 := by omega
        by_cases hone : cscope = 1
        · subst hone
          rw [read_block_loop]
          simp only [if_neg (show ('}' : Char) ≠ '{' by decide), if_pos rfl, hmod]
          rw [nat_block_split]
          simp [List.dropLast_concat]
        · have h2 : 2 ≤ cscope := by omega
          have Ht : ∀ i, i ≤ t.length →
              (cscope - 1) + (t.take i).count '{' ≤ 255 + (t.take i).count '}' := by
            intro i hi
            have := H (i + 1) (by simp; omega)
            simp [List.count_cons] at this
            omega
          rw [read_block_loop]
          simp only [if_neg (show ('}' : Char) ≠ '{' by decide), if_pos rfl, hmod]
          rw [if_neg (show ¬(cscope - 1 = 0) by omega)]
          rw [ih (acc ++ ['}']) (cscope - 1) (by omega) Ht]
          rw [nat_block_split]
          simp only [if_neg (show ('}' : Char) ≠ '{' by decide), if_pos rfl, if_neg hone]
          cases nat_block_split t (cscope - 1) <;> simp
      · have Ht : ∀ i, i ≤ t.length →
            cscope + (t.take i).count '{' ≤ 255 + (t.take i).count '}' := by
          intro i hi
          have := H (i + 1) (by simp; omega)
          simp [List.count_cons, ha, hb] at this
          omega
        rw [read_block_loop]
        simp only [if_neg ha, if_neg hb]
        rw [ih (acc ++ [a]) cscope h1 Ht]
        rw [nat_block_split]
        simp only [if_neg ha, if_neg hb]
        cases nat_block_split t cscope <;> simp

/-- C10.  `read_block` with its 8-bit nesting counter: for every input
whose nesting depth never exceeds 255 (so the `u8` counter never wraps),
it consumes through the matching `}` — counting braces inside string
literals and comments like any other character — and returns the text
strictly between the outer braces together with the line advanced by the
leading whitespace; when the input ends first it returns the error
`Expected '\x7d' before '<end>'`. -/
theorem C10_read_block_bounded (ws body : List Char) (line : Nat) (filename : String)
    (hws : ∀ c ∈ ws, c.isWhitespace = true)
    (hdepth : ∀ i, i ≤ body.length →
      1 + (body.take i).count '{' ≤ 255 + (body.take i).count '}') :
    (∀ block rest, nat_block_split body 1 = some (block, rest) →
      read_block (ws ++ '{' :: body) line filename =
        .ok (line + ws.count '\n', block, rest)) ∧
    (nat_block_split body 1 = none →
      read_block (ws ++ '{' :: body) line filename =
        .err ("Expected '\x7d' before '<end>'")) := by
  have hreach : reach (ws ++ '{' :: body) '{' line filename =
      .ok (body, line + ws.count '\n') := by
    rw [reach, skip_whitespace_to_brace ws body line hws]
    simp
  have hloop := read_block_loop_eq_nat body [] 1 (by omega) hdepth
  constructor
  · intro block rest hsplit
    rw [read_block]
    show (reach (ws ++ '{' :: body) '{' line filename >>= _) = _
    rw [hreach]
    show (match read_block_loop body [] 1 with
      | some (block, rest) => PRes.ok (line + ws.count '\n', block, rest)
      | none => PRes.err (pp_expected_before "\x7d" "<end>" (line + ws.count '\n') filename)) = _
    rw [hloop, hsplit]
    simp
  · intro hsplit
    rw [read_block]
    show (reach (ws ++ '{' :: body) '{' line filename >>= _) = _
    rw [hreach]
    show (match read_block_loop body [] 1 with
      | some (block, rest) => PRes.ok (line + ws.count '\n', block, rest)
      | none => PRes.err (pp_expected_before "\x7d" "<end>" (line + ws.count '\n') filename)) = _
    rw [hloop, hsplit]
    rfl

/-- C10, witness.  A concrete nested block: depth stays at most 2 and
`read_block` returns the text between the outer braces. -/
theorem C10_read_block_bounded_witness :
    read_block " {a{b}c}d".data 1 "main.clue" = .ok (1, "a{b}c".data, "d".data) := by
  have h := C10_read_block_bounded [' '] "a\x7bb\x7dc\x7dd".data 1 "main.clue"
    (by decide) (by decide)
  have h2 := h.1 "a{b}c".data "d".data (by rfl)
  exact h2

theorem takeWhile_all_append {α : Type} (p : α → Bool) (l r : List α)
    (h : ∀ a ∈ l, p a = true) :
    (l ++ r).takeWhile p = l ++ r.takeWhile p := by
  induction l with
  | nil => simp
  | cons a t ih =>
    have ha := h a (by simp)
    simp [List.takeWhile, ha, ih (fun x hx => h x (by simp [hx]))]

theorem dropWhile_all_append {α : Type} (p : α → Bool) (l r : List α)
    (h : ∀ a ∈ l, p a = true) :
    (l ++ r).dropWhile p = r.dropWhile p := by
  induction l with
  | nil => simp
  | cons a t ih =>
    have ha := h a (by simp)
    simp [List.dropWhile, ha, ih (fun x hx => h x (by simp [hx]))]

theorem takeWhile_all {α : Type} (p : α → Bool) (l : List α)
    (h : ∀ a ∈ l, p a = true) : l.takeWhile p = l := by
  have := takeWhile_all_append p l [] h
  simpa using this

theorem dropWhile_all {α : Type} (p : α → Bool) (l : List α)
    (h : ∀ a ∈ l, p a = true) : l.dropWhile p = [] := by
  have := dropWhile_all_append p l [] h
  simpa using this

theorem id_not_ws (c : Char) (h : is_identifier c = true) : c.isWhitespace = false := by
  by_contra hw
  simp only [Bool.not_eq_false] at hw
  simp only [Char.isWhitespace, Bool.or_eq_true, decide_eq_true_eq] at hw
  rcases hw with ((h1 | h1) | h1) | h1 <;> subst h1 <;> exact absurd h (by decide)

theorem pseudos_phase1_skip (xs : List Char) (l : List Char)
    (h : ∀ c ∈ xs, c ≠ '=') :
    pseudos_phase1 (xs ++ l) = pseudos_phase1 l := by
  induction xs with
  | nil => simp
  | cons a t ih =>
    have ha := h a (by simp)
    rw [List.cons_append, pseudos_phase1.eq_def]
    simp only [ha, if_false]
    exact ih (fun x hx => h x (by simp [hx]))

theorem join_append_last (init : List (List Char)) (last : List Char) (h : init ≠ []) :
    join_targets (init ++ [last]) = join_targets init ++ ',' :: ' ' :: last := by
  induction init with
  | nil => exact absurd rfl h
  | cons a t ih =>
    cases t with
    | nil => rfl
    | cons b u =>
      rw [show join_targets ((a :: b :: u) ++ [last])
          = a ++ ',' :: ' ' :: join_targets ((b :: u) ++ [last]) from rfl]
      rw [ih (by simp)]
      rw [show join_targets (a :: b :: u) = a ++ ',' :: ' ' :: join_targets (b :: u)
        from rfl]
      simp

theorem join_length (ns : List (List Char)) (h : ∀ n ∈ ns, n ≠ []) :
    ns.length ≤ (join_targets ns).length := by
  induction ns with
  | nil => simp
  | cons a t ih =>
    have ha : 1 ≤ a.length := by
      have := h a (by simp)
      cases a with
      | nil => exact absurd rfl this
      | cons _ _ => simp
    cases t with
    | nil => simpa [join_targets] using ha
    | cons b u =>
      have hrest := ih (fun n hn => h n (by simp [hn]))
      rw [show join_targets (a :: b :: u) = a ++ ',' :: ' ' :: join_targets (b :: u)
        from rfl]
      simp only [List.length_append, List.length_cons]
      simp at hrest ⊢
      omega

theorem phase2_join (ns : List (List Char)) : ∀ (acc : List (List Char)) (fuel : Nat),
    ns ≠ [] →
    (∀ n ∈ ns, n ≠ [] ∧ ∀ c ∈ n, is_identifier c = true) →
    ns.length ≤ fuel →
    pseudos_phase2 fuel ((join_targets ns).reverse) acc = acc ++ ns.reverse := by
  induction ns using List.reverseRecOn with
  | nil => intro acc fuel h; exact absurd rfl h
  | append_singleton init last ih =>
    intro acc fuel _ hid hfuel
    cases fuel with
    | zero => simp at hfuel
    | succ f =>
      have hlast := hid last (by simp)
      have hlastid : ∀ c ∈ last.reverse, is_identifier c = true := by
        intro c hc
        exact hlast.2 c (List.mem_reverse.mp hc)
      by_cases hinit : init = []
      · subst hinit
        show pseudos_phase2 (f + 1) ((join_targets ([] ++ [last])).reverse) acc = _
        rw [show join_targets ([] ++ [last]) = last from rfl]
        rw [pseudos_phase2]
        rw [takeWhile_all _ _ hlastid, dropWhile_all _ _ hlastid]
        simp [List.dropWhile]
      · rw [join_append_last init last hinit]
        have hrev : (join_targets init ++ ',' :: ' ' :: last).reverse =
            last.reverse ++ ' ' :: ',' :: (join_targets init).reverse := by
          simp
        rw [hrev, pseudos_phase2]
        rw [takeWhile_all_append _ _ _ hlastid, dropWhile_all_append _ _ _ hlastid]
        rw [show (' ' :: ',' :: (join_targets init).reverse).takeWhile is_identifier
            = [] from rfl]
        rw [show (' ' :: ',' :: (join_targets init).reverse).dropWhile is_identifier
            = ' ' :: ',' :: (join_targets init).reverse from rfl]
        rw [show (' ' :: ',' :: (join_targets init).reverse).dropWhile Char.isWhitespace
            = ',' :: (join_targets init).reverse by simp [List.dropWhile]]
        simp only [List.append_nil, List.reverse_reverse]
        rw [ih (acc ++ [last]) f hinit (fun n hn => hid n (by simp [hn]))
          (by simp at hfuel ⊢; omega)]
        simp

theorem join_reverse_cons (ns : List (List Char)) (hne : ns ≠ [])
    (hid : ∀ n ∈ ns, n ≠ [] ∧ ∀ c ∈ n, is_identifier c = true) :
    ∃ c t, (join_targets ns).reverse = c :: t ∧ is_identifier c = true := by
  induction ns using List.reverseRecOn with
  | nil => exact absurd rfl hne
  | append_singleton init last ih =>
    have hlast := hid last (by simp)
    have hrevne : last.reverse ≠ [] := by
      simpa using hlast.1
    obtain ⟨c, t, hct⟩ := List.exists_cons_of_ne_nil hrevne
    have hcid : is_identifier c = true := by
      have hmem : c ∈ last.reverse := by rw [hct]; simp
      exact hlast.2 c (List.mem_reverse.mp hmem)
    by_cases hinit : init = []
    · subst hinit
      refine ⟨c, t, ?_, hcid⟩
      show (join_targets ([] ++ [last])).reverse = c :: t
      rw [show join_targets ([] ++ [last]) = last from rfl, hct]
    · rw [join_append_last init last hinit]
      refine ⟨c, t ++ ' ' :: ',' :: (join_targets init).reverse, ?_, hcid⟩
      simp [hct]

theorem read_pseudos_join (ns : List (List Char)) (R : List Char)
    (hne : ns ≠ [])
    (hid : ∀ n ∈ ns, n ≠ [] ∧ ∀ c ∈ n, is_identifier c = true)
    (hR : ∀ c ∈ R, c ≠ '=') :
    read_pseudos ((join_targets ns ++ ' ' :: '=' :: ' ' :: R).reverse) = ns.reverse := by
  have hrev : (join_targets ns ++ ' ' :: '=' :: ' ' :: R).reverse =
      R.reverse ++ ' ' :: '=' :: ' ' :: (join_targets ns).reverse := by
    simp
  have hp1 : pseudos_phase1 ((join_targets ns ++ ' ' :: '=' :: ' ' :: R).reverse) =
      some ((join_targets ns).reverse) := by
    rw [hrev, pseudos_phase1_skip _ _ (fun c hc => hR c (List.mem_reverse.mp hc))]
    rw [pseudos_phase1.eq_def]
    simp only [show (' ' : Char) = '=' ↔ False by simp, if_false]
    rw [pseudos_phase1.eq_def]
    simp

  rw [read_pseudos, hp1]
  have hskip : skip_whitespace_backwards ((join_targets ns).reverse) =
      (join_targets ns).reverse := by
    obtain ⟨c, t, hct, hcid⟩ := join_reverse_cons ns hne hid
    rw [skip_whitespace_backwards, hct]
    simp [List.dropWhile, id_not_ws c hcid]
  show pseudos_phase2 ((join_targets ns ++ ' ' :: '=' :: ' ' :: R).reverse.length + 1)
    (skip_whitespace_backwards ((join_targets ns).reverse)) [] = ns.reverse
  rw [hskip]
  apply phase2_join ns [] _ hne hid
  have h1 := join_length ns (fun n hn => (hid n hn).1)
  simp
  omega

/-- C1, amended.  Pseudo-variables index the nearest assignment's target
list 1-based from the FIRST (left-most) name: whenever the emitted code
ends with targets `t1, ..., tn`, a space, `=`, a space and an `=`-free
right-hand side, `read_pseudos` recovers the target list (right-most
first), and the substitution `pseudos.get(pseudos.len() - N)` of
`preprocess_code` therefore yields `tN` counting from the left for
`1 ≤ N ≤ n`, and the literal text `nil` when `N = 0` or `N` exceeds
`n`. -/
theorem C1_pseudo_indexing_amended (ns : List (List Char)) (R : List Char) (N : Nat)
    (hne : ns ≠ [])
    (hid : ∀ n ∈ ns, n ≠ [] ∧ ∀ c ∈ n, is_identifier c = true)
    (hR : ∀ c ∈ R, c ≠ '=')
    (hlen : ns.length < USIZE_MOD) :
    read_pseudos ((join_targets ns ++ ' ' :: '=' :: ' ' :: R).reverse) = ns.reverse ∧
    (1 ≤ N → N ≤ ns.length → pseudo_substitution ns.reverse N = (ns[N - 1]?).getD []) ∧
    (N = 0 ∨ ns.length < N ∧ N < USIZE_MOD →
      pseudo_substitution ns.reverse N = ['n', 'i', 'l']) := by
  refine ⟨read_pseudos_join ns R hne hid hR, ?_, ?_⟩
  · intro hN1 hN2
    have hNlt : N < USIZE_MOD := lt_of_le_of_lt hN2 hlen
    rw [pseudo_substitution]
    have hidx : (ns.reverse.length + (USIZE_MOD - N % USIZE_MOD)) % USIZE_MOD
        = ns.length - N := by
      rw [List.length_reverse, Nat.mod_eq_of_lt hNlt]
      rw [show ns.length + (USIZE_MOD - N) = USIZE_MOD + (ns.length - N) by omega]
      rw [Nat.add_mod_left]
      exact Nat.mod_eq_of_lt (by omega)
    rw [hidx]
    have hlt : ns.length - N < ns.length := by omega
    rw [List.getElem?_reverse hlt]
    rw [show ns.length - 1 - (ns.length - N) = N - 1 by omega]
    have hN1lt : N - 1 < ns.length := by omega
    rw [List.getElem?_eq_getElem hN1lt]
    rfl
  · intro hcase
    rw [pseudo_substitution]
    rcases hcase with h0 | ⟨hgt, hlt⟩
    · subst h0
      have hidx : (ns.reverse.length + (USIZE_MOD - 0 % USIZE_MOD)) % USIZE_MOD
          = ns.length := by
      
        rw [List.length_reverse]
        simp [Nat.add_mod_right, Nat.mod_eq_of_lt hlen]
      rw [hidx]
      rw [List.getElem?_eq_none (by simp)]
      rfl
    · have hidx : (ns.reverse.length + (USIZE_MOD - N % USIZE_MOD)) % USIZE_MOD
          = ns.length + (USIZE_MOD - N) := by
        rw [List.length_reverse, Nat.mod_eq_of_lt hlt]
        exact Nat.mod_eq_of_lt (by omega)
      rw [hidx]
      rw [List.getElem?_eq_none (by simp)]
      rfl

/-- C1, witness.  For the emitted text `a, b = 1, 2` the pseudo list is
`[b, a]` (right-most first); `$1` substitutes the left-most target `a`,
and `$3` exceeds the two targets and substitutes `nil`. -/
theorem C1_pseudo_indexing_witness :
    read_pseudos ("a, b = 1, 2".data.reverse) = [['b'], ['a']] ∧
    pseudo_substitution [['b'], ['a']] 1 = ['a'] ∧
    pseudo_substitution [['b'], ['a']] 3 = ['n', 'i', 'l'] := by
  have h1 := C1_pseudo_indexing_amended [['a'], ['b']] "1, 2".data 1
    (by decide) (by decide) (by decide) (by norm_num [USIZE_MOD])
  have h3 := C1_pseudo_indexing_amended [['a'], ['b']] "1, 2".data 3
    (by decide) (by decide) (by decide) (by norm_num [USIZE_MOD])
  refine ⟨h1.1, ?_, ?_⟩
  · have := h1.2.1 (by norm_num) (by norm_num)
    exact this
  · have := h3.2.2 (Or.inr ⟨by norm_num, by norm_num [USIZE_MOD]⟩)
    exact this

/-- C2, amended.  For every non-ASCII lead byte at the head of the input
(outside strings and comments) the analyzer always fails: it reads up to
three further bytes (zero-padded near end of input) and returns the
`Invalid character` error carrying the successfully decoded scalar and
the current line, or propagates the decoder's error when the sequence is
invalid; the decoded character is never passed through into the output. -/
theorem C2_nonascii_amended (b : Nat) (bs : List Nat) (h1 : 128 ≤ b) (h2 : b < 256) :
    (∀ c r, utf8_decode_next (b :: (bs.take 3 ++ List.replicate (3 - bs.length) 0)) =
        some (.ok (c, r)) →
      analyze_file (b :: bs) =
        .error (.lexical ("Invalid character '" ++ c.toString ++ "'") 1)) ∧
    (∀ e, utf8_decode_next (b :: (bs.take 3 ++ List.replicate (3 - bs.length) 0)) =
        some (.error e) →
      analyze_file (b :: bs) = .error (.decode e)) := by
  have hstep : analyze_loop (2 * (b :: bs).length + 2) (b :: bs) [] 1 =
      analyze_invalid b bs 1 := by
    rw [show 2 * (b :: bs).length + 2 = (2 * bs.length + 3) + 1 by
      simp [List.length_cons]; omega]
    rw [analyze_loop]
    simp only [if_neg (show ¬ b = 10 by omega),
      if_neg (show ¬ (b = 39 ∨ b = 34 ∨ b = 96) by omega),
      if_neg (show ¬ b = 47 by omega),
      if_neg (show ¬ b < 128 by omega)]
  constructor
  · intro c r h
    rw [analyze_file, hstep, analyze_invalid, h]
    rfl
  · intro e h
    rw [analyze_file, hstep, analyze_invalid, h]
    rfl

/-- C2, witness.  The valid two-byte sequence `CE B1` decodes to `α` but
the analyzer reports it as an invalid character; the malformed sequence
`C3 28` propagates the decoder's error. -/
theorem C2_nonascii_amended_witness :
    analyze_file [0xCE, 0xB1] = .error (.lexical "Invalid character 'α'" 1) ∧
    analyze_file [0xC3, 0x28] = .error (.decode "invalid UTF-8 sequence") := by
  constructor
  · exact (C2_nonascii_amended 0xCE [0xB1] (by norm_num) (by norm_num)).1 'α' [0, 0]
      (by rfl)
  · exact (C2_nonascii_amended 0xC3 [0x28] (by norm_num) (by norm_num)).2
      "invalid UTF-8 sequence" (by rfl)

/-- C3, amended.  When the previous token is `DOT`, `SAFEDOT`,
`DOUBLE_COLON` or `SAFE_DOUBLE_COLON`, the guard arm of the keyword match
turns `JUST` and `ERROR` keywords into plain `IDENTIFIER`s with no
diagnostic, but `LUA` keywords still scan as their keyword kind and
`RESERVED` words still raise the reserved-keyword diagnostic, because
those two arms precede the guard; the four behaviours are exhibited by
the table entries for `if`, `and`, `of` and `macro`. -/
theorem C3_dot_keyword_amended (i : CodeInfo) (ident : String)
    (h : i.last = DOT ∨ i.last = SAFEDOT ∨ i.last = DOUBLE_COLON ∨
      i.last = SAFE_DOUBLE_COLON) :
    (∀ k, keyword_token_kind i ident (.JUST k) = (IDENTIFIER, i)) ∧
    (∀ e, keyword_token_kind i ident (.ERROR e) = (IDENTIFIER, i)) ∧
    (∀ k, keyword_token_kind i ident (.LUA k) = (k, i)) ∧
    (∀ e, keyword_token_kind i ident (.RESERVED e) = i.reserved ident e) ∧
    List.lookup "if" KEYWORDS = some (.LUA IF) ∧
    List.lookup "and" KEYWORDS =
      some (.RESERVED "'and' operators in Clue are made with '&&'") ∧
    List.lookup "of" KEYWORDS = some (.JUST OF) ∧
    List.lookup "macro" KEYWORDS =
      some (.ERROR "'macro' is deprecated and was replaced with '@define'") := by
  have hd : dot_like i.last = true := by
    rcases h with h | h | h | h <;> simp [dot_like, h]
  refine ⟨?_, ?_, fun k => rfl, fun e => rfl, rfl, rfl, rfl, rfl⟩
  · intro k
    simp [keyword_token_kind, hd]
  · intro e
    simp [keyword_token_kind, hd]

/-- C3, witness.  In the state reached after scanning `a.` (whose last
token is `DOT`), the `JUST` keyword `of` and the `ERROR` keyword `macro`
both resolve to `IDENTIFIER` with the state unchanged. -/
theorem C3_dot_keyword_witness :
    keyword_token_kind (scanRun "a." "main.clue") "of" (.JUST OF) =
      (IDENTIFIER, scanRun "a." "main.clue") ∧
    keyword_token_kind (scanRun "a." "main.clue") "macro"
      (.ERROR "'macro' is deprecated and was replaced with '@define'") =
      (IDENTIFIER, scanRun "a." "main.clue") := by
  have h := C3_dot_keyword_amended (scanRun "a." "main.clue") "of" (Or.inl (by rfl))
  have h2 := C3_dot_keyword_amended (scanRun "a." "main.clue") "macro" (Or.inl (by rfl))
  exact ⟨h.1 OF, h2.2.1 "'macro' is deprecated and was replaced with '@define'"⟩

/-! ### C9: the scan-loop invariant and the error summary -/

theorem scan_inv_of_fields {i j : CodeInfo} (ht : j.tokens = i.tokens)
    (he : j.errored = i.errored) (hp : j.printed = i.printed)
    (h : scan_inv i) : scan_inv j := by
  rcases h with ⟨h1, h2⟩
  refine ⟨fun t ht' => h1 t (ht ▸ ht'), ?_⟩
  rw [he, hp]
  exact h2

theorem scan_inv_warning {i : CodeInfo} (m : String) (h : scan_inv i) :
    scan_inv (i.warning m) := by
  rcases h with ⟨h1, _⟩
  refine ⟨fun t ht => h1 t ht, ?_⟩
  simp [CodeInfo.warning]

theorem scan_inv_add_token {i : CodeInfo} {kind : TokenType} (hk : kind ≠ EOF)
    (h : scan_inv i) : scan_inv (i.add_token kind) := by
  rcases h with ⟨h1, h2⟩
  refine ⟨?_, h2⟩
  intro t ht
  simp only [CodeInfo.add_token, List.mem_append, List.mem_singleton] at ht
  rcases ht with ht | ht
  · exact h1 t ht
  · subst ht
    exact hk

theorem scan_inv_add_literal_token {i : CodeInfo} {kind : TokenType} (lit : String)
    (hk : kind ≠ EOF) (h : scan_inv i) : scan_inv (i.add_literal_token kind lit) := by
  rcases h with ⟨h1, h2⟩
  refine ⟨?_, h2⟩
  intro t ht
  simp only [CodeInfo.add_literal_token, List.mem_append, List.mem_singleton] at ht
  rcases ht with ht | ht
  · exact h1 t ht
  · subst ht
    exact hk

theorem scan_inv_set_current {i : CodeInfo} (n : Nat) (h : scan_inv i) :
    scan_inv { i with current := n } :=
  scan_inv_of_fields rfl rfl rfl h

theorem scan_inv_snd_ite {c : Prop} [Decidable c] {a b : Nat × CodeInfo}
    (ha : scan_inv a.2) (hb : scan_inv b.2) : scan_inv (if c then a else b).2 := by
  split
  · exact ha
  · exact hb

theorem scan_inv_read_number {i : CodeInfo} (check : Char → Bool) (simple : Bool)
    (h : scan_inv i) : scan_inv (i.read_number check simple) := by
  refine scan_inv_add_token (by decide) (scan_inv_set_current _ ?_)
  repeat'
    first
    | exact h
    | apply scan_inv_warning
    | apply scan_inv_snd_ite

theorem scan_inv_read_string (strend : Char) {i : CodeInfo} (h : scan_inv i) :
    scan_inv (i.read_string strend) := by
  rw [CodeInfo.read_string]
  dsimp only
  repeat' split
  all_goals
    first
    | exact scan_inv_of_fields rfl rfl rfl (scan_inv_warning _ h)
    | exact scan_inv_of_fields rfl rfl rfl
        (scan_inv_add_literal_token _ (by decide) (scan_inv_of_fields rfl rfl rfl h))

theorem scan_inv_read_raw_string {i : CodeInfo} (h : scan_inv i) :
    scan_inv i.read_raw_string := by
  rw [CodeInfo.read_raw_string]
  dsimp only
  repeat' split
  all_goals
    first
    | exact scan_inv_of_fields rfl rfl rfl (scan_inv_warning _ h)
    | exact scan_inv_of_fields rfl rfl rfl
        (scan_inv_add_literal_token _ (by decide) (scan_inv_of_fields rfl rfl rfl h))

theorem scan_inv_read_multiline_comment {i : CodeInfo} (h : scan_inv i) :
    scan_inv i.read_multiline_comment := by
  rw [CodeInfo.read_multiline_comment]
  dsimp only
  repeat' split
  all_goals
    first
    | exact scan_inv_of_fields rfl rfl rfl (scan_inv_warning _ h)
    | exact scan_inv_of_fields rfl rfl rfl h

theorem scan_inv_compare (e : Char) {i : CodeInfo} (h : scan_inv i) :
    scan_inv (i.compare e).2 := by
  rw [CodeInfo.compare]
  repeat' split
  all_goals
    first
    | exact h
    | exact scan_inv_of_fields rfl rfl rfl h

theorem scan_inv_applyAction (f : SymAction) {i : CodeInfo} (h : scan_inv i) :
    scan_inv (applyAction f i) := by
  cases f with
  | readComment => exact scan_inv_of_fields rfl rfl rfl h
  | readMultilineComment => exact scan_inv_read_multiline_comment h
  | readString d => exact scan_inv_read_string d h
  | readRawString => exact scan_inv_read_raw_string h
  | countNewline => exact scan_inv_of_fields rfl rfl rfl h
  | warnDeprecated m => exact scan_inv_warning m h
  | safeDoubleColon =>
    rw [applyAction]
    dsimp only
    repeat' split
    all_goals
      first
      | exact scan_inv_add_token (by decide) (scan_inv_compare ':' h)
      | exact scan_inv_of_fields rfl rfl rfl (scan_inv_compare ':' h)

theorem lookup_all {α β : Type} [BEq α] (P : β → Bool) :
    ∀ (l : List (α × β)) (a : α) (b : β), l.all (fun p => P p.2) = true →
      List.lookup a l = some b → P b = true := by
  intro l
  induction l with
  | nil =>
    intro a b _ hl
    simp [List.lookup] at hl
  | cons p t ih =>
    intro a b hall hl
    obtain ⟨k, v⟩ := p
    simp only [List.all_cons, Bool.and_eq_true] at hall
    cases hk : a == k with
    | false =>
      rw [List.lookup, hk] at hl
      exact ih a b hall.2 hl
    | true =>
      rw [List.lookup, hk] at hl
      cases hl
      exact hall.1

theorem scan_char_inv : ∀ (fuel : Nat) (symbols : List (Char × SymbolType)) (c : Char)
    (i : CodeInfo), symbols.all (fun p => sym_no_eof fuel p.2) = true → scan_inv i →
    scan_inv (scan_char fuel symbols c i).2 := by
  intro fuel
  induction fuel with
  | zero =>
    intro symbols c i _ h
    exact h
  | succ fuel ih =>
    intro symbols c i hall h
    rw [scan_char]
    cases hlk : List.lookup c symbols with
    | none => exact h
    | some s =>
      have hs := lookup_all (sym_no_eof (fuel + 1)) symbols c s hall hlk
      cases s with
      | JUST kind =>
        refine scan_inv_add_token ?_ h
        simpa [sym_no_eof] using hs
      | FUNCTION f => exact scan_inv_applyAction f h
      | SYMBOLS sub default =>
        simp only [sym_no_eof, Bool.and_eq_true] at hs
        dsimp only [CodeInfo.advance]
        have hrec := ih sub (i.at i.current) { i with current := i.current + 1 } hs.2
          (scan_inv_set_current _ h)
        split
        · exact hrec
        · refine scan_inv_add_token ?_ (scan_inv_set_current _ hrec)
          simpa using hs.1

theorem scan_inv_keyword_token {i : CodeInfo} (ident : String) (kw : KeywordType)
    (hkw : kw_no_eof kw = true) (h : scan_inv i) :
    scan_inv ((keyword_token_kind i ident kw).2.add_token (keyword_token_kind i ident kw).1) := by
  cases kw with
  | JUST k =>
    rw [keyword_token_kind]
    by_cases hd : dot_like i.last = true
    · rw [if_pos hd]
      refine scan_inv_add_token ?_ h
      show (IDENTIFIER : TokenType) ≠ EOF
      decide
    · rw [if_neg hd]
      refine scan_inv_add_token ?_ h
      show k ≠ EOF
      simpa [kw_no_eof] using hkw
  | LUA k =>
    refine scan_inv_add_token ?_ h
    show k ≠ EOF
    simpa [kw_no_eof] using hkw
  | ERROR e =>
    rw [keyword_token_kind]
    by_cases hd : dot_like i.last = true
    · rw [if_pos hd]
      refine scan_inv_add_token ?_ h
      show (IDENTIFIER : TokenType) ≠ EOF
      decide
    · rw [if_neg hd]
      refine scan_inv_add_token ?_ (scan_inv_warning _ h)
      show (IDENTIFIER : TokenType) ≠ EOF
      decide
  | RESERVED e =>
    refine scan_inv_add_token ?_ (scan_inv_warning _ h)
    show (IDENTIFIER : TokenType) ≠ EOF
    decide

theorem scanDispatch_inv (c : Char) {i : CodeInfo} (h : scan_inv i) :
    scan_inv (scanDispatch c i) := by
  rw [scanDispatch]
  repeat' split
  · exact h
  · exact scan_inv_read_number _ _ (scan_inv_set_current _ h)
  · exact scan_inv_read_number _ _ (scan_inv_set_current _ h)
  · exact scan_inv_read_number _ _ h
  · exact scan_inv_read_number _ _ h
  · exact scan_inv_keyword_token _ _
      (lookup_all kw_no_eof KEYWORDS _ _ rfl (by assumption))
      (scan_inv_set_current _ h)
  · exact scan_inv_add_token (show (IDENTIFIER : TokenType) ≠ EOF by decide)
      (scan_inv_set_current _ h)
  · exact scan_inv_warning _ h

theorem scanStep_inv {i : CodeInfo} (h : scan_inv i) : scan_inv (scanStep i) := by
  rw [scanStep]
  have hr := scan_char_inv 4 SYMBOLS ((⟨i.line, i.current, i.current, i.size, i.code,
      i.filename, i.tokens, i.last, i.errored, i.printed⟩ : CodeInfo).at i.current)
    ⟨i.line, i.current, i.current + 1, i.size, i.code,
      i.filename, i.tokens, i.last, i.errored, i.printed⟩
    rfl (scan_inv_of_fields rfl rfl rfl h)
  split
  · exact hr
  · exact scanDispatch_inv _ hr

theorem scanLoop_inv : ∀ (fuel : Nat) (i : CodeInfo), scan_inv i → scan_inv (scanLoop fuel i)
  | 0, _, h => h
  | fuel + 1, i, h => by
    rw [scanLoop]
    split
    · exact scanLoop_inv fuel _ (scanStep_inv h)
    · exact h

theorem scanRun_inv (code filename : String) : scan_inv (scanRun code filename) := by
  refine scanLoop_inv _ _ ⟨?_, ?_⟩
  · intro t ht
    simp [CodeInfo.new] at ht
  · simp [CodeInfo.new]

/-- C9.  `scan_code` returns the single summary error
`Cannot continue until the above errors are fixed` exactly when at least
one diagnostic was printed during the scan (the scan itself continues
past each collected error and only reports at the end); otherwise it
returns the token vector, which contains exactly one `EOF` token, the
final `<end>` token. -/
theorem C9_scan_error_summary (code filename : String) :
    (scan_code code filename = .error "Cannot continue until the above errors are fixed"
      ↔ (scanRun code filename).printed ≠ []) ∧
    (∀ ts, scan_code code filename = .ok ts →
      ts.countP (fun t => decide (t.kind = EOF)) = 1 ∧
      ts.getLast? = some (Token.new EOF "<end>" (scanRun code filename).line)) := by
  obtain ⟨h1, h2⟩ := scanRun_inv code filename
  by_cases herr : (scanRun code filename).errored = true
  · constructor
    · constructor
      · intro _
        exact h2.mp herr
      · intro _
        rw [scan_code]
        rw [if_pos herr]
    · intro ts hts
      rw [scan_code] at hts
      rw [if_pos herr] at hts
      exact Except.noConfusion hts
  · have hpr : (scanRun code filename).printed = [] := by
      by_contra hne
      exact herr (h2.mpr hne)
    constructor
    · constructor
      · intro hcontra
        rw [scan_code] at hcontra
        rw [if_neg herr] at hcontra
        exact Except.noConfusion hcontra
      · intro hne
        exact absurd hpr hne
    · intro ts hts
      rw [scan_code] at hts
      rw [if_neg herr] at hts
      have hts' : ((scanRun code filename).add_literal_token EOF "<end>").tokens = ts :=
        Except.ok.inj hts
      rw [← hts']
      rw [CodeInfo.add_literal_token]
      dsimp only
      constructor
      · rw [List.countP_append]
        have hz : List.countP (fun t => decide (t.kind = EOF))
            (scanRun code filename).tokens = 0 := by
          rw [List.countP_eq_zero]
          intro t ht
          simpa using h1 t ht
        rw [hz]
        rfl
      · exact List.getLast?_concat _

/-- C9, witness.  On the diagnostic-free input `x` the scanner returns
`[IDENTIFIER "x", EOF "<end>"]`, which indeed has exactly one `EOF`
token, in final position. -/
theorem C9_scan_error_summary_witness :
    List.countP (fun t => decide (t.kind = EOF))
      [Token.new IDENTIFIER "x" 1, Token.new EOF "<end>" 1] = 1 ∧
    List.getLast? [Token.new IDENTIFIER "x" 1, Token.new EOF "<end>" 1] =
      some (Token.new EOF "<end>" 1) := by
  have h := (C9_scan_error_summary "x" "main.clue").2
    [Token.new IDENTIFIER "x" 1, Token.new EOF "<end>" 1] rfl
  exact ⟨h.1, h.2.trans rfl⟩
